import Mathlib

/-!
Verification of the tytle repository's middle-end against its specification.

This file contains a shallow embedding of:
* the CFG graph (`src/src/ir/cfg_graph.rs`),
* the generic AST walker (`src/src/ast/semantic/ast_walker.rs`),
* the program parser (`src/src/parser/program_parser.rs`),
* the symbol table (modelled from the spec; only its tests are available),
followed by theorems settling the claims about them.

Rust `HashMap<CfgNodeId, CfgNode>` is embedded as an association list with
unique keys (insertion replaces the previous binding), `HashSet<CfgEdge>` as a
list with membership-checking insertion, and a Rust `panic` / `unwrap` failure
is embedded as `Option.none`.
-/

set_option maxHeartbeats 1000000

namespace Tytle

/-! ## CFG graph: src/src/ir/cfg_graph.rs -/

abbrev CfgNodeId := Nat

inductive CfgJumpType where
  | WhenTrue
  | Always
  | Fallback
  deriving DecidableEq

/-- Instruction stored inside CFG nodes. Modelled from the spec: the full
`CfgInstruction` enum lives in `src/src/ir` outside the available sources; the
spec treats the instruction set as open, and the available code (the tests of
`cfg_graph.rs`) uses exactly the `Load` and `Return` variants. -/
inductive CfgInstruction where
  | Load (addr : Nat)
  | Return
  deriving DecidableEq

structure CfgEdge where
  node_id : CfgNodeId
  jmp_type : CfgJumpType
  deriving DecidableEq

structure CfgNode where
  id : CfgNodeId
  insts : List CfgInstruction
  incoming : List CfgEdge
  outgoing : List CfgEdge
  deriving DecidableEq

/-- `HashSet::insert`: adds the edge unless it is already present. -/
def insertEdge (e : CfgEdge) (s : List CfgEdge) : List CfgEdge :=
  if e ∈ s then s else e :: s

def CfgNode.new (id : CfgNodeId) : CfgNode :=
  { id := id, insts := [], incoming := [], outgoing := [] }

def CfgNode.is_empty (n : CfgNode) : Bool :=
  n.insts.isEmpty

def CfgNode.is_orphan (n : CfgNode) : Bool :=
  n.incoming.length == 0 && n.outgoing.length == 0

def CfgNode.ends_with_return (n : CfgNode) : Bool :=
  match n.insts.getLast? with
  | none => false
  | some CfgInstruction.Return => true
  | some _ => false

def CfgNode.append_inst (n : CfgNode) (inst : CfgInstruction) : CfgNode :=
  { n with insts := n.insts ++ [inst] }

def CfgNode.add_outgoing_edge (n : CfgNode) (dst : CfgNodeId) (k : CfgJumpType) : CfgNode :=
  { n with outgoing := insertEdge { node_id := dst, jmp_type := k } n.outgoing }

def CfgNode.add_incoming_edge (n : CfgNode) (src : CfgNodeId) (k : CfgJumpType) : CfgNode :=
  { n with incoming := insertEdge { node_id := src, jmp_type := k } n.incoming }

structure CfgGraph where
  next_id : CfgNodeId
  nodes : List (CfgNodeId × CfgNode)
  deriving DecidableEq

/-- `HashMap::get`: first binding of the key, if any. -/
def CfgGraph.lookupNode (g : CfgGraph) (id : CfgNodeId) : Option CfgNode :=
  (g.nodes.find? (fun p => p.1 == id)).map Prod.snd

/-- `HashMap::insert`: replaces any existing binding of the key. -/
def mapInsert (k : CfgNodeId) (v : CfgNode) (l : List (CfgNodeId × CfgNode)) :
    List (CfgNodeId × CfgNode) :=
  (k, v) :: l.filter (fun p => p.1 != k)

/-- Rewrites the node stored under `id` in place (the effect of a mutation
through `get_node_mut`); every other binding is untouched. -/
def CfgGraph.modifyNode (g : CfgGraph) (id : CfgNodeId) (f : CfgNode → CfgNode) : CfgGraph :=
  { g with nodes := g.nodes.map (fun p => (p.1, if p.1 == id then f p.2 else p.2)) }

/-- `CfgGraph::get_node`; the `unwrap` panic on an absent id is `none`. -/
def CfgGraph.get_node (g : CfgGraph) (id : CfgNodeId) : Option CfgNode :=
  g.lookupNode id

/-- `CfgGraph::get_node_mut`; the `unwrap` panic on an absent id is `none`. -/
def CfgGraph.get_node_mut (g : CfgGraph) (id : CfgNodeId) : Option CfgNode :=
  g.lookupNode id

def CfgGraph.node_is_empty (g : CfgGraph) (id : CfgNodeId) : Option Bool :=
  (g.get_node id).map CfgNode.is_empty

def CfgGraph.ends_with_return (g : CfgGraph) (id : CfgNodeId) : Option Bool :=
  (g.get_node id).map CfgNode.ends_with_return

def CfgGraph.is_orphan (g : CfgGraph) (id : CfgNodeId) : Option Bool :=
  (g.get_node id).map CfgNode.is_orphan

def CfgGraph.add_node (g : CfgGraph) (node : CfgNode) : CfgGraph :=
  { next_id := if g.next_id - 1 < node.id then node.id + 1 else g.next_id,
    nodes := mapInsert node.id node g.nodes }

/-- `CfgGraph::add_edge`: the source node records the outgoing edge, then the
destination node records the matching incoming edge; either `get_node_mut`
panics (`none`) when its id is absent. -/
def CfgGraph.add_edge (g : CfgGraph) (src dst : CfgNodeId) (k : CfgJumpType) :
    Option CfgGraph :=
  match g.get_node_mut src with
  | none => none
  | some _ =>
    let g1 := g.modifyNode src (fun n => n.add_outgoing_edge dst k)
    match g1.get_node_mut dst with
    | none => none
    | some _ => some (g1.modifyNode dst (fun n => n.add_incoming_edge src k))

def CfgGraph.new_node (g : CfgGraph) : CfgNodeId × CfgGraph :=
  (g.next_id,
   { next_id := g.next_id + 1,
     nodes := mapInsert g.next_id (CfgNode.new g.next_id) g.nodes })

def CfgGraph.get_current_id (g : CfgGraph) : CfgNodeId :=
  g.next_id - 1

def CfgGraph.get_entry_node_id (_ : CfgGraph) : CfgNodeId :=
  0

/-- `CfgGraph::current_node_mut().append_inst(inst)`; panics (`none`) when the
current node id is absent from the map. -/
def CfgGraph.append_inst_current (g : CfgGraph) (inst : CfgInstruction) : Option CfgGraph :=
  match g.get_node_mut g.get_current_id with
  | none => none
  | some _ => some (g.modifyNode g.get_current_id (fun n => n.append_inst inst))

def CfgGraph.new : CfgGraph :=
  ((CfgGraph.mk 0 []).new_node).2

/-- `CfgGraph::compact`: the orphan ids are collected from the unmodified map
and then removed, which is exactly a filter by the original orphan test. -/
def CfgGraph.compact (g : CfgGraph) : CfgGraph :=
  { g with nodes := g.nodes.filter (fun p => !p.2.is_orphan) }

/-- The public graph mutations named by the claims. -/
inductive CfgOp where
  | new_node
  | add_node (n : CfgNode)
  | add_edge (src dst : CfgNodeId) (k : CfgJumpType)
  | append_inst (i : CfgInstruction)
  | compact
  deriving DecidableEq

def applyOp (g : CfgGraph) : CfgOp → Option CfgGraph
  | CfgOp.new_node => some (g.new_node).2
  | CfgOp.add_node n => some (g.add_node n)
  | CfgOp.add_edge s d k => g.add_edge s d k
  | CfgOp.append_inst i => g.append_inst_current i
  | CfgOp.compact => some g.compact

def applyOps (g : CfgGraph) : List CfgOp → Option CfgGraph
  | [] => some g
  | op :: rest =>
    match applyOp g op with
    | none => none
    | some g' => applyOps g' rest

/-- A `HashMap` never holds two bindings of one key; the association list
embedding records that as key nodup. -/
def CfgGraph.nodupKeys (g : CfgGraph) : Prop :=
  (g.nodes.map Prod.fst).Nodup

instance (g : CfgGraph) : Decidable g.nodupKeys := by
  unfold CfgGraph.nodupKeys
  infer_instance

/-- One Boolean check of the symmetry invariant for one direction: the edge
`e` recorded on node `src` has the matching mirror edge on its target node. -/
def CfgGraph.mirrorsB (g : CfgGraph) (src : CfgNodeId) (e : CfgEdge)
    (proj : CfgNode → List CfgEdge) : Bool :=
  match g.lookupNode e.node_id with
  | some nb => decide (CfgEdge.mk src e.jmp_type ∈ proj nb)
  | none => false

/-- The representation invariant: every outgoing edge `(A, B, k)` has a
matching incoming edge `(B, A, k)` on the target node, and vice versa. -/
def CfgGraph.symmetricB (g : CfgGraph) : Bool :=
  g.nodes.all (fun p =>
    p.2.outgoing.all (fun e => g.mirrorsB p.1 e CfgNode.incoming)
    && p.2.incoming.all (fun e => g.mirrorsB p.1 e CfgNode.outgoing))

def CfgGraph.edge_symmetric (g : CfgGraph) : Prop :=
  g.symmetricB = true

instance (g : CfgGraph) : Decidable g.edge_symmetric := by
  unfold CfgGraph.edge_symmetric
  infer_instance

/-- Propositional formulation of the symmetry invariant, phrased through the
node map's lookup function (equivalent to `symmetricB` on duplicate-free
maps). -/
def CfgGraph.symmetricP (g : CfgGraph) : Prop :=
  ∀ a na, g.lookupNode a = some na →
    (∀ e ∈ na.outgoing,
      ∃ nb, g.lookupNode e.node_id = some nb ∧ CfgEdge.mk a e.jmp_type ∈ nb.incoming)
    ∧ (∀ e ∈ na.incoming,
      ∃ nb, g.lookupNode e.node_id = some nb ∧ CfgEdge.mk a e.jmp_type ∈ nb.outgoing)

/-- One step along a recorded outgoing edge. -/
def CfgGraph.step (g : CfgGraph) (a b : CfgNodeId) : Prop :=
  ∃ na, g.lookupNode a = some na ∧ ∃ e ∈ na.outgoing, e.node_id = b

/-- A concrete graph (entry node wired to node 1 plus the orphan node 2) used
to instantiate general theorems. -/
def wiredGraph : CfgGraph :=
  CfgGraph.mk 3
    [(2, CfgNode.new 2),
     (1, CfgNode.mk 1 [] [CfgEdge.mk 0 CfgJumpType.Always] []),
     (0, CfgNode.mk 0 [] [] [CfgEdge.mk 1 CfgJumpType.Always])]

/-- The graph `CfgGraph::new` plus one `new_node` call. -/
def twoNodeGraph : CfgGraph :=
  CfgGraph.mk 2 [(1, CfgNode.new 1), (0, CfgNode.new 0)]

/-- `twoNodeGraph` after `add_edge 0 1 Always`. -/
def edgedGraph : CfgGraph :=
  CfgGraph.mk 2
    [(1, CfgNode.mk 1 [] [CfgEdge.mk 0 CfgJumpType.Always] []),
     (0, CfgNode.mk 0 [] [] [CfgEdge.mk 1 CfgJumpType.Always])]

/-! ## Generic AST walker: src/src/ast/semantic/ast_walker.rs

The statement/expression types are the ones the walker consumes
(`crate::ast::statement::*`, `crate::ast::expression::*`). Rust `Vec` fields
that sit inside the recursion are embedded as the mutually defined list types
`ExprList` / `StmtList` so that the traversal is structurally recursive. -/

namespace Walker

/-- Literal expressions. Modelled from the spec: `LiteralExpr` lives outside
the available sources; the spec lists int, string and bool literals. -/
inductive LiteralExpr where
  | Int (n : Nat)
  | Str (s : String)
  | Boolean (b : Bool)
  deriving DecidableEq

/-- Binary operators. Modelled from the spec: the operator enum lives outside
the available sources and the walker treats it opaquely. -/
inductive BinaryOp where
  | Add
  | Mul
  deriving DecidableEq

mutual

inductive Expression where
  | mk (expr_ast : ExpressionAst)

inductive ExpressionAst where
  | Literal (l : LiteralExpr)
  | ProcCall (proc_name : String) (proc_params : ExprList)
  | Binary (op : BinaryOp) (lexpr rexpr : Expression)

inductive ExprList where
  | nil
  | cons (e : Expression) (rest : ExprList)

end

def Expression.expr_ast : Expression → ExpressionAst
  | Expression.mk a => a

structure ProcParam where
  param_name : String
  param_type : String
  deriving DecidableEq

inductive CommandStmt where
  | PenUp
  | PenDown
  | ShowTurtle
  | HideTurtle
  | PenErase
  deriving DecidableEq

/-- Direction statement as the walker sees it (field `expr` holds the distance
expression; the walker touches no other field). -/
structure DirectionStmt where
  expr : Expression

inductive MakeStmtKind where
  | Global
  | Local
  | Assign
  deriving DecidableEq

structure MakeStmt where
  var_name : String
  kind : MakeStmtKind
  expr : Expression

mutual

inductive Statement where
  | NOP
  | EOF
  | Command (cmd : CommandStmt)
  | Direction (d : DirectionStmt)
  | If (i : IfStmt)
  | Make (m : MakeStmt)
  | Repeat (r : RepeatStmt)
  | Procedure (p : ProcedureStmt)

inductive IfStmt where
  | mk (cond_expr : Expression) (true_block : BlockStatement) (false_block : OptBlock)

inductive RepeatStmt where
  | mk (count_expr : Expression) (block : BlockStatement)

inductive ProcedureStmt where
  | mk (name : String) (params : List ProcParam) (block : BlockStatement)

inductive BlockStatement where
  | mk (stmts : StmtList)

inductive OptBlock where
  | noneB
  | someB (b : BlockStatement)

inductive StmtList where
  | nil
  | cons (s : Statement) (rest : StmtList)

end

def ProcedureStmt.name : ProcedureStmt → String
  | ProcedureStmt.mk n _ _ => n

def ProcedureStmt.params : ProcedureStmt → List ProcParam
  | ProcedureStmt.mk _ ps _ => ps

def ProcedureStmt.block : ProcedureStmt → BlockStatement
  | ProcedureStmt.mk _ _ b => b

def BlockStatement.stmts : BlockStatement → StmtList
  | BlockStatement.mk s => s

structure Ast where
  statements : StmtList

/-- One hook of the Rust `AstWalker` trait: it may mutate the walker state and
may signal failure; on failure the state mutated so far survives (the Rust
hook takes `&mut self` and returns `Result<(), E>`). -/
abbrev Hook (σ ε : Type) := σ → σ × Option ε

/-- The hook set of the `AstWalker` trait. A concrete walker is a choice of
hooks; the `walk_*` functions below are the trait's provided methods. -/
structure WalkerHooks (σ ε : Type) where
  on_proc_start : ProcedureStmt → Hook σ ε
  on_proc_end : ProcedureStmt → Hook σ ε
  on_proc_param : ProcedureStmt → ProcParam → Hook σ ε
  on_block_stmt_start : BlockStatement → Hook σ ε
  on_block_stmt_end : BlockStatement → Hook σ ε
  on_literal_expr : LiteralExpr → Hook σ ε
  on_binary_expr : BinaryOp → Expression → Expression → Hook σ ε
  on_proc_call_expr_start : String → Hook σ ε
  on_proc_call_expr_end : String → Hook σ ε
  on_proc_param_expr_start : Expression → Hook σ ε
  on_proc_param_expr_end : Expression → Hook σ ε
  on_make_global_stmt : MakeStmt → Hook σ ε
  on_make_local_stmt : MakeStmt → Hook σ ε
  on_make_assign_stmt : MakeStmt → Hook σ ε
  on_command_stmt : CommandStmt → Hook σ ε
  on_direct_stmt : DirectionStmt → Hook σ ε

mutual

def walk_expr (w : WalkerHooks σ ε) : Expression → σ → σ × Option ε
  | Expression.mk (ExpressionAst.Literal l), s => w.on_literal_expr l s
  | Expression.mk (ExpressionAst.ProcCall nm ps), s => walk_proc_call_expr w nm ps s
  | Expression.mk (ExpressionAst.Binary op l r), s =>
    match walk_expr w l s with
    | (s1, some e) => (s1, some e)
    | (s1, none) =>
      match walk_expr w r s1 with
      | (s2, some e) => (s2, some e)
      | (s2, none) => w.on_binary_expr op l r s2

def walk_proc_call_expr (w : WalkerHooks σ ε) (proc_name : String) :
    ExprList → σ → σ × Option ε
  | ps, s =>
    match w.on_proc_call_expr_start proc_name s with
    | (s1, some e) => (s1, some e)
    | (s1, none) => walk_param_exprs w ps s1

def walk_param_exprs (w : WalkerHooks σ ε) : ExprList → σ → σ × Option ε
  | ExprList.nil, s => (s, none)
  | ExprList.cons p rest, s =>
    match w.on_proc_param_expr_start p s with
    | (s1, some e) => (s1, some e)
    | (s1, none) =>
      match walk_expr w p s1 with
      | (s2, some e) => (s2, some e)
      | (s2, none) =>
        match w.on_proc_param_expr_end p s2 with
        | (s3, some e) => (s3, some e)
        | (s3, none) => walk_param_exprs w rest s3

end

def walk_command_stmt (w : WalkerHooks σ ε) (cmd : CommandStmt) : σ → σ × Option ε :=
  w.on_command_stmt cmd

def walk_direct_stmt (w : WalkerHooks σ ε) (d : DirectionStmt) (s : σ) : σ × Option ε :=
  match walk_expr w d.expr s with
  | (s1, some e) => (s1, some e)
  | (s1, none) => w.on_direct_stmt d s1

def walk_make_stmt (w : WalkerHooks σ ε) (m : MakeStmt) (s : σ) : σ × Option ε :=
  match walk_expr w m.expr s with
  | (s1, some e) => (s1, some e)
  | (s1, none) =>
    match m.kind with
    | MakeStmtKind.Global => w.on_make_global_stmt m s1
    | MakeStmtKind.Local => w.on_make_local_stmt m s1
    | MakeStmtKind.Assign => w.on_make_assign_stmt m s1

def walk_proc_params_aux (w : WalkerHooks σ ε) (p : ProcedureStmt) :
    List ProcParam → σ → σ × Option ε
  | [], s => (s, none)
  | param :: rest, s =>
    match w.on_proc_param p param s with
    | (s1, some e) => (s1, some e)
    | (s1, none) => walk_proc_params_aux w p rest s1

def walk_proc_params (w : WalkerHooks σ ε) (p : ProcedureStmt) : σ → σ × Option ε :=
  walk_proc_params_aux w p p.params

mutual

def walk_stmt (w : WalkerHooks σ ε) : Statement → σ → σ × Option ε
  | Statement.NOP, s => (s, none)
  | Statement.EOF, s => (s, none)
  | Statement.Command c, s => walk_command_stmt w c s
  | Statement.Direction d, s => walk_direct_stmt w d s
  | Statement.If i, s => walk_if_stmt w i s
  | Statement.Make m, s => walk_make_stmt w m s
  | Statement.Repeat r, s => walk_repeat_stmt w r s
  | Statement.Procedure p, s => walk_proc_stmt w p s

def walk_proc_stmt (w : WalkerHooks σ ε) : ProcedureStmt → σ → σ × Option ε
  | ProcedureStmt.mk nm ps (BlockStatement.mk sts), s =>
    match w.on_proc_start (ProcedureStmt.mk nm ps (BlockStatement.mk sts)) s with
    | (s1, some e) => (s1, some e)
    | (s1, none) =>
      match walk_proc_params w (ProcedureStmt.mk nm ps (BlockStatement.mk sts)) s1 with
      | (s2, some e) => (s2, some e)
      | (s2, none) =>
        match walk_stmt_list w sts s2 with
        | (s3, some e) => (s3, some e)
        | (s3, none) => w.on_proc_end (ProcedureStmt.mk nm ps (BlockStatement.mk sts)) s3

def walk_if_stmt (w : WalkerHooks σ ε) : IfStmt → σ → σ × Option ε
  | IfStmt.mk cond tb OptBlock.noneB, s =>
    match walk_expr w cond s with
    | (s1, some e) => (s1, some e)
    | (s1, none) =>
      match walk_block_stmt w tb s1 with
      | (s2, some e) => (s2, some e)
      | (s2, none) => (s2, none)
  | IfStmt.mk cond tb (OptBlock.someB b), s =>
    match walk_expr w cond s with
    | (s1, some e) => (s1, some e)
    | (s1, none) =>
      match walk_block_stmt w tb s1 with
      | (s2, some e) => (s2, some e)
      | (s2, none) => walk_block_stmt w b s2

def walk_repeat_stmt (w : WalkerHooks σ ε) : RepeatStmt → σ → σ × Option ε
  | RepeatStmt.mk cnt blk, s =>
    match walk_expr w cnt s with
    | (s1, some e) => (s1, some e)
    | (s1, none) => walk_block_stmt w blk s1

def walk_block_stmt (w : WalkerHooks σ ε) : BlockStatement → σ → σ × Option ε
  | BlockStatement.mk sts, s =>
    match w.on_block_stmt_start (BlockStatement.mk sts) s with
    | (s1, some e) => (s1, some e)
    | (s1, none) =>
      match walk_stmt_list w sts s1 with
      | (s2, some e) => (s2, some e)
      | (s2, none) => w.on_block_stmt_end (BlockStatement.mk sts) s2

def walk_stmt_list (w : WalkerHooks σ ε) : StmtList → σ → σ × Option ε
  | StmtList.nil, s => (s, none)
  | StmtList.cons st rest, s =>
    match walk_stmt w st s with
    | (s1, some e) => (s1, some e)
    | (s1, none) => walk_stmt_list w rest s1

end

def walk_ast (w : WalkerHooks σ ε) (ast : Ast) : σ → σ × Option ε :=
  walk_stmt_list w ast.statements

/-! ### Observing hook invocations

`Event` names one hook invocation. `trace_*` is the list of hook invocations
the traversal performs on a given subtree, in order. The `recordWalker`
instance has every hook append its event and succeed; the `failWalker n err`
instance behaves the same except that the hook invoked when exactly `n` events
have fired already (the invocation of index `n`) also returns the error
`err`. -/

inductive Event where
  | procStart (name : String)
  | procEnd (name : String)
  | procParam (p : ProcParam)
  | blockStart
  | blockEnd
  | literal (l : LiteralExpr)
  | binary (op : BinaryOp)
  | procCallStart (name : String)
  | procCallEnd (name : String)
  | paramExprStart
  | paramExprEnd
  | makeGlobal
  | makeLocal
  | makeAssign
  | command (c : CommandStmt)
  | direct
  deriving DecidableEq

mutual

def trace_expr : Expression → List Event
  | Expression.mk (ExpressionAst.Literal l) => [Event.literal l]
  | Expression.mk (ExpressionAst.ProcCall nm ps) =>
    Event.procCallStart nm :: trace_param_exprs ps
  | Expression.mk (ExpressionAst.Binary op l r) =>
    trace_expr l ++ trace_expr r ++ [Event.binary op]

def trace_param_exprs : ExprList → List Event
  | ExprList.nil => []
  | ExprList.cons p rest =>
    Event.paramExprStart :: (trace_expr p ++ (Event.paramExprEnd :: trace_param_exprs rest))

end

def trace_make_kind : MakeStmtKind → Event
  | MakeStmtKind.Global => Event.makeGlobal
  | MakeStmtKind.Local => Event.makeLocal
  | MakeStmtKind.Assign => Event.makeAssign

mutual

def trace_stmt : Statement → List Event
  | Statement.NOP => []
  | Statement.EOF => []
  | Statement.Command c => [Event.command c]
  | Statement.Direction d => trace_expr d.expr ++ [Event.direct]
  | Statement.Make m => trace_expr m.expr ++ [trace_make_kind m.kind]
  | Statement.If (IfStmt.mk cond tb fb) =>
    trace_expr cond ++ trace_block tb ++
      (match fb with
       | OptBlock.noneB => []
       | OptBlock.someB b => trace_block b)
  | Statement.Repeat (RepeatStmt.mk cnt blk) => trace_expr cnt ++ trace_block blk
  | Statement.Procedure (ProcedureStmt.mk nm ps (BlockStatement.mk sts)) =>
    Event.procStart nm ::
      (ps.map Event.procParam ++ trace_stmt_list sts ++ [Event.procEnd nm])

def trace_block : BlockStatement → List Event
  | BlockStatement.mk sts => Event.blockStart :: (trace_stmt_list sts ++ [Event.blockEnd])

def trace_stmt_list : StmtList → List Event
  | StmtList.nil => []
  | StmtList.cons st rest => trace_stmt st ++ trace_stmt_list rest

end

def trace_ast (ast : Ast) : List Event :=
  trace_stmt_list ast.statements

/-- A hook that appends its event to the trace and succeeds. -/
def recordHook (ev : Event) : Hook (List Event) ε :=
  fun tr => (tr ++ [ev], none)

def recordWalker (ε : Type) : WalkerHooks (List Event) ε where
  on_proc_start := fun p => recordHook (Event.procStart p.name)
  on_proc_end := fun p => recordHook (Event.procEnd p.name)
  on_proc_param := fun _ param => recordHook (Event.procParam param)
  on_block_stmt_start := fun _ => recordHook Event.blockStart
  on_block_stmt_end := fun _ => recordHook Event.blockEnd
  on_literal_expr := fun l => recordHook (Event.literal l)
  on_binary_expr := fun op _ _ => recordHook (Event.binary op)
  on_proc_call_expr_start := fun nm => recordHook (Event.procCallStart nm)
  on_proc_call_expr_end := fun nm => recordHook (Event.procCallEnd nm)
  on_proc_param_expr_start := fun _ => recordHook Event.paramExprStart
  on_proc_param_expr_end := fun _ => recordHook Event.paramExprEnd
  on_make_global_stmt := fun _ => recordHook Event.makeGlobal
  on_make_local_stmt := fun _ => recordHook Event.makeLocal
  on_make_assign_stmt := fun _ => recordHook Event.makeAssign
  on_command_stmt := fun c => recordHook (Event.command c)
  on_direct_stmt := fun _ => recordHook Event.direct

/-- A hook that appends its event, and fails exactly when it is the hook
invocation of index `n` (i.e. `n` events have fired before it). -/
def failHook (n : Nat) (err : ε) (ev : Event) : Hook (List Event) ε :=
  fun tr => (tr ++ [ev], if tr.length = n then some err else none)

def failWalker (n : Nat) (err : ε) : WalkerHooks (List Event) ε where
  on_proc_start := fun p => failHook n err (Event.procStart p.name)
  on_proc_end := fun p => failHook n err (Event.procEnd p.name)
  on_proc_param := fun _ param => failHook n err (Event.procParam param)
  on_block_stmt_start := fun _ => failHook n err Event.blockStart
  on_block_stmt_end := fun _ => failHook n err Event.blockEnd
  on_literal_expr := fun l => failHook n err (Event.literal l)
  on_binary_expr := fun op _ _ => failHook n err (Event.binary op)
  on_proc_call_expr_start := fun nm => failHook n err (Event.procCallStart nm)
  on_proc_call_expr_end := fun nm => failHook n err (Event.procCallEnd nm)
  on_proc_param_expr_start := fun _ => failHook n err Event.paramExprStart
  on_proc_param_expr_end := fun _ => failHook n err Event.paramExprEnd
  on_make_global_stmt := fun _ => failHook n err Event.makeGlobal
  on_make_local_stmt := fun _ => failHook n err Event.makeLocal
  on_make_assign_stmt := fun _ => failHook n err Event.makeAssign
  on_command_stmt := fun c => failHook n err (Event.command c)
  on_direct_stmt := fun _ => failHook n err Event.direct

/-- The `?`-operator sequencing the walker uses everywhere: run `F`; on its
failure stop with its state and error, otherwise continue with `G`. -/
def hookSeq {σ ε : Type} (F G : σ → σ × Option ε) : σ → σ × Option ε :=
  fun s =>
    match F s with
    | (s1, some e) => (s1, some e)
    | (s1, none) => G s1

/-- A state transformer over traces that appends exactly the events `A` and
succeeds — the behavior of a walk under `recordWalker`. -/
def RecordsTrace {ε : Type} (A : List Event)
    (F : List Event → List Event × Option ε) : Prop :=
  ∀ tr, F tr = (tr ++ A, none)

/-- A state transformer over traces that would append exactly the events `A`,
except that the hook invocation of global index `n` (when it falls inside
this run) also reports `err`, after which nothing more runs: the trace stops
right after the failing hook's event and the error is returned — the behavior
of a walk under `failWalker n err`. -/
def FailsAt {ε : Type} (n : Nat) (err : ε) (A : List Event)
    (F : List Event → List Event × Option ε) : Prop :=
  ∀ tr, F tr =
    if tr.length ≤ n ∧ n < tr.length + A.length
    then ((tr ++ A).take (n + 1), some err)
    else (tr ++ A, none)

end Walker

/-! ## Program parser: src/src/parser/program_parser.rs

The parser consumes the AST types of `src/src/ast/statement.rs` (the
expression type with `Int`/`Add`/`Mul`). A lexer is a token stream; `peek`
reads the head and `pop` removes it. Every Rust `panic`, failed `unwrap`,
failed `assert_eq` and `unimplemented` arm is embedded as `none`. -/

namespace Parser

inductive Token where
  | EOF
  | NEWLINE
  | MUL
  | ADD
  | LPAREN
  | RPAREN
  | LBRACKET
  | RBRACKET
  | ASSIGN
  | COMMA
  | LT
  | GT
  | VALUE (s : String)
  deriving DecidableEq

/-- Source location attached to each token. Modelled from the spec:
`lexer/location.rs` is outside the available sources and the parser never
inspects locations. -/
structure Location where
  line : Nat
  col : Nat
  deriving DecidableEq

abbrev TokLoc := Token × Location

inductive Direction where
  | Forward
  | Backward
  | Left
  | Right
  deriving DecidableEq

/-- Modelled from the spec: `Direction::from(&str)` maps the already-matched
direction keyword to its variant; any other input is a failure (`none`). -/
def Direction.from_str : String → Option Direction :=
  fun s =>
    if s = "FORWARD" then some Direction.Forward
    else if s = "BACKWARD" then some Direction.Backward
    else if s = "LEFT" then some Direction.Left
    else if s = "RIGHT" then some Direction.Right
    else none

inductive Expression where
  | Int (n : Nat)
  | Add (l r : Expression)
  | Mul (l r : Expression)
  deriving DecidableEq

structure Symbol where
  name : String
  deriving DecidableEq

structure MakeStmt where
  symbol : Symbol
  expr : Expression

structure DirectionStmt where
  direction : Direction
  distance_expr : Expression

inductive CommandStmt where
  | PenUp
  | PenDown
  | ShowTurtle
  | HideTurtle
  | PenErase
  deriving DecidableEq

mutual

inductive Statement where
  | Command (c : CommandStmt)
  | Direction (d : DirectionStmt)
  | Repeat (r : RepeatStmt)
  | If (i : IfStmt)
  | Make (m : MakeStmt)
  | Procedure (p : ProcedureStmt)
  | Nop

inductive RepeatStmt where
  | mk (count_expr : Expression) (block : BlockStatement)

inductive IfStmt where
  | mk (cond_expr : Expression) (true_block : BlockStatement) (false_block : OptBlock)

inductive ProcedureStmt where
  | mk (loction : Option Location) (name : String) (block : BlockStatement)

inductive BlockStatement where
  | mk (stmts : StmtList)

inductive OptBlock where
  | noneB
  | someB (b : BlockStatement)

inductive StmtList where
  | nil
  | cons (s : Statement) (rest : StmtList)

end

structure Program where
  statements : List Statement

/-- Splits a character list on a separator character (the pieces, in order,
separators dropped). -/
def splitOnChar (c : Char) : List Char → List (List Char)
  | [] => [[]]
  | x :: rest =>
    match splitOnChar c rest with
    | [] => [[x]]
    | w :: ws => if x = c then [] :: w :: ws else (x :: w) :: ws

/-- Modelled from the spec: `SimpleLexer` is outside the available sources;
tokenization is treated as an external producer splitting the input into
whitespace-separated words per line, with a `NEWLINE` token between lines and
a final `EOF` token. -/
def tokenOfWord (w : String) : Token :=
  if w = "=" then Token.ASSIGN
  else if w = "+" then Token.ADD
  else if w = "*" then Token.MUL
  else if w = "(" then Token.LPAREN
  else if w = ")" then Token.RPAREN
  else if w = "[" then Token.LBRACKET
  else if w = "]" then Token.RBRACKET
  else if w = "," then Token.COMMA
  else if w = "<" then Token.LT
  else if w = ">" then Token.GT
  else Token.VALUE w

def lexLine (line : List Char) : List Token :=
  (((splitOnChar ' ' line).filter (fun w => !w.isEmpty)).map String.mk).map tokenOfWord

def simple_lexer_tokens (code : String) : List TokLoc :=
  (List.intercalate [Token.NEWLINE] ((splitOnChar (Char.ofNat 10) code.data).map lexLine)
      ++ [Token.EOF]).map (fun t => (t, Location.mk 0 0))

def digitVal (c : Char) : Option Nat :=
  if c = '0' then some 0
  else if c = '1' then some 1
  else if c = '2' then some 2
  else if c = '3' then some 3
  else if c = '4' then some 4
  else if c = '5' then some 5
  else if c = '6' then some 6
  else if c = '7' then some 7
  else if c = '8' then some 8
  else if c = '9' then some 9
  else none

def natOfCharsAux : List Char → Nat → Option Nat
  | [], acc => some acc
  | c :: rest, acc =>
    match digitVal c with
    | none => none
    | some d => natOfCharsAux rest (acc * 10 + d)

/-- Rust `str::parse::<usize>` on the popped `VALUE` token: succeeds exactly
on non-empty all-digit strings (the parse panic on anything else is `none`). -/
def natOfString (s : String) : Option Nat :=
  match s.data with
  | [] => none
  | cs => natOfCharsAux cs 0

/-- `ProgramParser::parse_expr` together with `parse_mul_expr` and
`expect_number`: pops a number, then peeks for `+` or `*` and recurses. -/
def parse_expr : List TokLoc → Option (Expression × List TokLoc)
  | [] => none
  | (t, _) :: rest =>
    match t with
    | Token.VALUE v =>
      match natOfString v with
      | none => none
      | some num =>
        match rest with
        | [] => none
        | (Token.ADD, _) :: rest2 =>
          match parse_expr rest2 with
          | none => none
          | some (right, rest3) => some (Expression.Add (Expression.Int num) right, rest3)
        | (Token.MUL, _) :: rest2 =>
          match parse_expr rest2 with
          | none => none
          | some (right, rest3) => some (Expression.Mul (Expression.Int num) right, rest3)
        | _ => some (Expression.Int num, rest)
    | _ => none

/-- `expect_newline`: popping nothing is accepted, `EOF`/`NEWLINE` are
accepted, anything else is a failure. -/
def expect_newline : List TokLoc → Option (List TokLoc)
  | [] => some []
  | (Token.EOF, _) :: r => some r
  | (Token.NEWLINE, _) :: r => some r
  | _ => none

def parse_direction (direction : String) (l : List TokLoc) :
    Option (Statement × List TokLoc) :=
  match parse_expr l.tail with
  | none => none
  | some (distance_expr, l2) =>
    match expect_newline l2 with
    | none => none
    | some l3 =>
      match Direction.from_str direction with
      | none => none
      | some d => some (Statement.Direction (DirectionStmt.mk d distance_expr), l3)

def parse_make (l : List TokLoc) : Option (Statement × List TokLoc) :=
  match l.tail with
  | [] => none
  | (Token.VALUE nm, _) :: l2 =>
    match l2 with
    | [] => none
    | (t, _) :: l3 =>
      if t = Token.ASSIGN then
        match parse_expr l3 with
        | none => none
        | some (e, l4) => some (Statement.Make (MakeStmt.mk (Symbol.mk nm) e), l4)
      else none
  | _ => none

def parse_basic_statement (val : String) (l : List TokLoc) :
    Option (Statement × List TokLoc) :=
  if val = "MAKE" then parse_make l
  else if val = "FORWARD" ∨ val = "BACKWARD" ∨ val = "RIGHT" ∨ val = "LEFT" then
    parse_direction val l
  else none

/-- `parse_statement`: `some (none, _)` is the `None` that ends the program
loop, `some (some st, _)` a parsed statement, `none` a panic. -/
def parse_statement (l : List TokLoc) : Option (Option Statement × List TokLoc) :=
  match l with
  | [] => some (none, [])
  | (Token.EOF, _) :: _ => some (none, l)
  | (Token.NEWLINE, _) :: rest => some (some Statement.Nop, rest)
  | (Token.VALUE v, _) :: _ =>
    if v = "REPEAT" ∨ v = "IF" ∨ v = "TO" then none
    else
      match parse_basic_statement v l with
      | none => none
      | some (st, l') => some (some st, l')
  | _ => none

/-- `parse_program`'s statement loop; `Nop` statements are skipped. The fuel
argument bounds the iteration count (each iteration consumes at least one
token, so the caller's fuel is always enough). -/
def parse_program : Nat → List TokLoc → Option (List Statement)
  | 0, _ => none
  | fuel + 1, l =>
    match parse_statement l with
    | none => none
    | some (none, _) => some []
    | some (some st, l') =>
      match parse_program fuel l' with
      | none => none
      | some sts =>
        match st with
        | Statement.Nop => some sts
        | _ => some (st :: sts)

def parse (code : String) : Option Program :=
  let toks := simple_lexer_tokens code
  (parse_program (toks.length + 1) toks).map Program.mk

end Parser

/-! ## Symbol table

Modelled from the spec: the `SymbolTable` implementation is outside the
available sources (only `src/tests/symbol_table_tests.rs` exercises it). The
model follows the spec's data model and operation contracts: an arena of
scopes indexed by identifier, identifiers assigned in creation order starting
at 1, parent links by identifier, a current-scope pointer (`none` denotes the
implicit root), per-scope symbol maps keyed by (name, kind), and the
`lookup_symbol` / `recursive_lookup_sym` contracts. -/

namespace Sem

structure Variable where
  name : String
  global : Bool
  reference : Option Nat
  deriving DecidableEq

def Variable.build_global (nm : String) : Variable :=
  Variable.mk nm true none

def Variable.build_local (nm : String) : Variable :=
  Variable.mk nm false none

def Variable.set_reference (v : Variable) (r : Nat) : Variable :=
  { v with reference := some r }

structure Procedure where
  name : String
  deriving DecidableEq

inductive SymbolKind where
  | Var
  | Proc
  deriving DecidableEq

inductive Symbol where
  | Var (v : Variable)
  | Proc (p : Procedure)
  deriving DecidableEq

def Symbol.name : Symbol → String
  | Symbol.Var v => v.name
  | Symbol.Proc p => p.name

def Symbol.kind : Symbol → SymbolKind
  | Symbol.Var _ => SymbolKind.Var
  | Symbol.Proc _ => SymbolKind.Proc

structure Scope where
  id : Nat
  parent : Option Nat
  symbols : List ((String × SymbolKind) × Symbol)
  deriving DecidableEq

structure SymbolTable where
  scopes : List Scope
  next_scope_id : Nat
  current_scope_id : Option Nat
  deriving DecidableEq

def SymbolTable.new : SymbolTable :=
  SymbolTable.mk [] 1 none

def SymbolTable.get_scope (t : SymbolTable) (id : Nat) : Option Scope :=
  t.scopes.find? (fun sc => sc.id == id)

def SymbolTable.is_root_scope (t : SymbolTable) : Bool :=
  t.current_scope_id.isNone

def SymbolTable.is_inner_scope (t : SymbolTable) : Bool :=
  t.current_scope_id.isSome

def SymbolTable.get_current_scope (t : SymbolTable) : Option Scope :=
  match t.current_scope_id with
  | none => none
  | some cid => t.get_scope cid

def SymbolTable.start_scope (t : SymbolTable) : Scope × SymbolTable :=
  let sc := Scope.mk t.next_scope_id t.current_scope_id []
  (sc, SymbolTable.mk (sc :: t.scopes) (t.next_scope_id + 1) (some sc.id))

def SymbolTable.end_scope (t : SymbolTable) : Option SymbolTable :=
  match t.get_current_scope with
  | none => none
  | some sc => some { t with current_scope_id := sc.parent }

def scopeLookup (sc : Scope) (nm : String) (k : SymbolKind) : Option Symbol :=
  (sc.symbols.find? (fun p => p.1 == (nm, k))).map Prod.snd

/-- Inserts a symbol into the current scope; no open scope or a same
(name, kind) redefinition is an error. -/
def SymbolTable.create_symbol (t : SymbolTable) (sym : Symbol) : Option SymbolTable :=
  match t.current_scope_id with
  | none => none
  | some cid =>
    match t.get_scope cid with
    | none => none
    | some sc =>
      match scopeLookup sc sym.name sym.kind with
      | some _ => none
      | none =>
        some { t with
               scopes := t.scopes.map (fun s =>
                 if s.id == cid then
                   { s with symbols := ((sym.name, sym.kind), sym) :: s.symbols }
                 else s) }

def SymbolTable.create_var_symbol (t : SymbolTable) (v : Variable) : Option SymbolTable :=
  t.create_symbol (Symbol.Var v)

def SymbolTable.create_proc_symbol (t : SymbolTable) (p : Procedure) : Option SymbolTable :=
  t.create_symbol (Symbol.Proc p)

def SymbolTable.lookup_symbol (t : SymbolTable) (scope_id : Nat) (nm : String)
    (k : SymbolKind) : Option Symbol :=
  match t.get_scope scope_id with
  | none => none
  | some sc => scopeLookup sc nm k

def recursive_lookup_aux (t : SymbolTable) (nm : String) (k : SymbolKind) :
    Nat → Nat → Option Symbol
  | 0, _ => none
  | fuel + 1, sid =>
    match t.get_scope sid with
    | none => none
    | some sc =>
      match scopeLookup sc nm k with
      | some s => some s
      | none =>
        match sc.parent with
        | none => none
        | some p => recursive_lookup_aux t nm k fuel p

/-- Walks from the given scope up through parents until found or the root is
exhausted; the fuel `scopes.length + 1` covers every parent chain of a table
whose parent links form a tree. -/
def SymbolTable.recursive_lookup_sym (t : SymbolTable) (scope_id : Nat) (nm : String)
    (k : SymbolKind) : Option Symbol :=
  recursive_lookup_aux t nm k (t.scopes.length + 1) scope_id

/-- The table of claim C8: a variable in an outer scope and a same-named
variable in a directly nested inner scope. -/
def shadowTable (vout vin : Variable) : Option SymbolTable :=
  let t1 := (SymbolTable.new.start_scope).2
  match t1.create_var_symbol vout with
  | none => none
  | some t2 =>
    let t3 := (t2.start_scope).2
    t3.create_var_symbol vin

end Sem

/-! ## Theorems -/

theorem find?_filter_of_imp {α} (l : List α) (p q : α → Bool)
    (h : ∀ x, p x = true → q x = true) :
    (l.filter q).find? p = l.find? p := by
  induction l with
  | nil => rfl
  | cons a l ih =>
    cases hq : q a with
    | true =>
      cases hp : p a with
      | true => simp [List.filter_cons, hq, List.find?_cons, hp]
      | false => simp [List.filter_cons, hq, List.find?_cons, hp, ih]
    | false =>
      have hp : p a = false := by
        cases hpa : p a with
        | true => exact absurd (h a hpa) (by simp [hq])
        | false => rfl
      simp [List.filter_cons, hq, List.find?_cons, hp, ih]

theorem find?_mapInsert_self (k : CfgNodeId) (v : CfgNode)
    (l : List (CfgNodeId × CfgNode)) :
    (mapInsert k v l).find? (fun p => p.1 == k) = some (k, v) := by
  simp [mapInsert, List.find?_cons]

theorem find?_mapInsert_ne (k : CfgNodeId) (v : CfgNode)
    (l : List (CfgNodeId × CfgNode)) (id : CfgNodeId) (h : id ≠ k) :
    (mapInsert k v l).find? (fun p => p.1 == id) = l.find? (fun p => p.1 == id) := by
  simp only [mapInsert, List.find?_cons]
  have hk : (k == id) = false := by simp [Ne.symm h]
  rw [hk]
  rw [find?_filter_of_imp]
  intro x hx
  have : x.1 = id := by simpa using hx
  simp [this, bne_iff_ne, h]

theorem lookupNode_modifyNode (g : CfgGraph) (id : CfgNodeId) (f : CfgNode → CfgNode)
    (id' : CfgNodeId) :
    (g.modifyNode id f).lookupNode id' =
      if id' = id then (g.lookupNode id').map f else g.lookupNode id' := by
  obtain ⟨next, nodes⟩ := g
  simp only [CfgGraph.modifyNode, CfgGraph.lookupNode]
  induction nodes with
  | nil => by_cases h : id' = id <;> simp [h]
  | cons a l ih =>
    obtain ⟨ka, va⟩ := a
    by_cases hka : ka = id'
    · subst hka
      by_cases hid : ka = id
      · subst hid
        simp [List.find?_cons]
      · have h1 : (ka == id) = false := by simp [hid]
        have h2 : ¬ ka = id := hid
        simp [List.find?_cons, h1, h2]
    · have h1 : (ka == id') = false := by simp [hka]
      simp only [List.map_cons, List.find?_cons, h1]
      exact ih

theorem find?_key_eq_none_of_not_mem (l : List (CfgNodeId × CfgNode)) (id : CfgNodeId)
    (h : id ∉ l.map Prod.fst) :
    l.find? (fun p => p.1 == id) = none := by
  rw [List.find?_eq_none]
  intro x hx
  simp only [beq_iff_eq]
  intro hxe
  exact h (by simpa [hxe] using List.mem_map_of_mem Prod.fst hx)

theorem find?_filter_by_value (l : List (CfgNodeId × CfgNode))
    (hnd : (l.map Prod.fst).Nodup) (id : CfgNodeId) (q : CfgNodeId × CfgNode → Bool) :
    (l.filter q).find? (fun p => p.1 == id) =
      match l.find? (fun p => p.1 == id) with
      | some x => if q x then some x else none
      | none => none := by
  induction l with
  | nil => rfl
  | cons a l ih =>
    rw [List.map_cons, List.nodup_cons] at hnd
    obtain ⟨hnotmem, hndl⟩ := hnd
    by_cases hkey : a.1 = id
    · subst hkey
      cases hq : q a with
      | true => simp [List.filter_cons, hq, List.find?_cons]
      | false =>
        have hnone : (l.filter q).find? (fun p => p.1 == a.1) = none := by
          rw [List.find?_eq_none]
          intro x hx
          simp only [beq_iff_eq]
          intro hxe
          have hxl : x ∈ l := List.mem_of_mem_filter hx
          exact hnotmem (by simpa [hxe] using List.mem_map_of_mem Prod.fst hxl)
        simp [List.filter_cons, hq, List.find?_cons, hnone]
    · have h1 : (a.1 == id) = false := by simp [hkey]
      cases hq : q a with
      | true =>
        have hfc : (a :: l).filter q = a :: l.filter q := by simp [List.filter_cons, hq]
        rw [hfc]
        simp only [List.find?_cons, h1]
        exact ih hndl
      | false =>
        simp only [List.filter_cons, hq, Bool.false_eq_true, if_false]
        rw [ih hndl]
        simp [List.find?_cons, h1]

theorem lookupNode_compact (g : CfgGraph) (hnd : g.nodupKeys) (id : CfgNodeId) :
    g.compact.lookupNode id =
      match g.lookupNode id with
      | some n => if n.is_orphan then none else some n
      | none => none := by
  obtain ⟨next, nodes⟩ := g
  simp only [CfgGraph.compact, CfgGraph.lookupNode]
  rw [find?_filter_by_value nodes hnd id]
  cases h : nodes.find? (fun p => p.1 == id) with
  | none => rfl
  | some x =>
    cases ho : x.2.is_orphan with
    | true => simp [ho]
    | false => simp [ho]

theorem find?_eq_some_of_mem_nodup (l : List (CfgNodeId × CfgNode))
    (hnd : (l.map Prod.fst).Nodup) (p : CfgNodeId × CfgNode) (hp : p ∈ l) :
    l.find? (fun x => x.1 == p.1) = some p := by
  induction l with
  | nil => exact absurd hp (List.not_mem_nil p)
  | cons a l ih =>
    rw [List.map_cons, List.nodup_cons] at hnd
    obtain ⟨hnotmem, hndl⟩ := hnd
    rcases List.mem_cons.mp hp with h | h
    · subst h
      simp [List.find?_cons]
    · have hne : (a.1 == p.1) = false := by
        simp only [beq_eq_false_iff_ne, ne_eq]
        intro hcontra
        exact hnotmem (by simpa [hcontra] using List.mem_map_of_mem Prod.fst h)
      simp only [List.find?_cons, hne]
      exact ih hndl h

theorem mem_of_lookupNode_eq_some (g : CfgGraph) (id : CfgNodeId) (n : CfgNode)
    (h : g.lookupNode id = some n) :
    (id, n) ∈ g.nodes := by
  simp only [CfgGraph.lookupNode, Option.map_eq_some'] at h
  obtain ⟨p, hp, hsnd⟩ := h
  have hmem := List.mem_of_find?_eq_some hp
  have hkey : p.1 = id := by simpa using List.find?_some hp
  have : p = (id, n) := by
    obtain ⟨p1, p2⟩ := p
    simp_all
  rwa [this] at hmem

theorem mirrorsB_eq_true (g : CfgGraph) (src : CfgNodeId) (e : CfgEdge)
    (proj : CfgNode → List CfgEdge) :
    g.mirrorsB src e proj = true ↔
      ∃ nb, g.lookupNode e.node_id = some nb ∧ CfgEdge.mk src e.jmp_type ∈ proj nb := by
  unfold CfgGraph.mirrorsB
  cases h : g.lookupNode e.node_id with
  | none => simp
  | some nb => simp [h]

/-- Claim C6: a CFG node reports `ends_with_return` exactly when its
instruction list is non-empty and ends in `Return`, and `is_empty` exactly
when its instruction list is empty; in particular an instruction-less node
reports `ends_with_return = false`. -/
theorem claim_C6 (n : CfgNode) :
    (n.ends_with_return = true ↔
      n.insts ≠ [] ∧ n.insts.getLast? = some CfgInstruction.Return)
    ∧ (n.is_empty = true ↔ n.insts = [])
    ∧ (n.insts = [] → n.ends_with_return = false) := by
  refine ⟨?_, ?_, ?_⟩
  · unfold CfgNode.ends_with_return
    cases h : n.insts.getLast? with
    | none =>
      have hnil : n.insts = [] := by
        cases hi : n.insts with
        | nil => rfl
        | cons a l => rw [hi] at h; simp [List.getLast?_concat] at h
      simp [hnil]
    | some i =>
      cases i with
      | Load addr => simp [h]
      | Return =>
        have hne : n.insts ≠ [] := by
          intro hc
          rw [hc] at h
          exact Option.noConfusion h
        simp [h, hne]
  · unfold CfgNode.is_empty
    exact List.isEmpty_iff
  · intro h
    unfold CfgNode.ends_with_return
    simp [h]

/-- Witness for claim C6 at the concrete instruction-less node `CfgNode::new 0`. -/
theorem claim_C6_witness :
    ((CfgNode.new 0).ends_with_return = true ↔
      (CfgNode.new 0).insts ≠ [] ∧ (CfgNode.new 0).insts.getLast? = some CfgInstruction.Return)
    ∧ ((CfgNode.new 0).is_empty = true ↔ (CfgNode.new 0).insts = [])
    ∧ ((CfgNode.new 0).insts = [] → (CfgNode.new 0).ends_with_return = false) :=
  claim_C6 (CfgNode.new 0)

/-- Claim C9: every node-id-taking query or mutation of `CfgGraph`
(`get_node`, `get_node_mut`, `node_is_empty`, `ends_with_return`,
`is_orphan`, `add_edge` on either endpoint) requires the id to be present in
the node map; on an absent id each of them panics — embedded as `none` —
rather than returning a graph or value. -/
theorem claim_C9 (g : CfgGraph) (id : CfgNodeId) (h : g.lookupNode id = none) :
    g.get_node id = none
    ∧ g.get_node_mut id = none
    ∧ g.node_is_empty id = none
    ∧ g.ends_with_return id = none
    ∧ g.is_orphan id = none
    ∧ (∀ d k, g.add_edge id d k = none)
    ∧ (∀ s k, g.add_edge s id k = none) := by
  refine ⟨h, h, ?_, ?_, ?_, ?_, ?_⟩
  · simp [CfgGraph.node_is_empty, CfgGraph.get_node, h]
  · simp [CfgGraph.ends_with_return, CfgGraph.get_node, h]
  · simp [CfgGraph.is_orphan, CfgGraph.get_node, h]
  · intro d k
    simp [CfgGraph.add_edge, CfgGraph.get_node_mut, h]
  · intro s k
    cases hs : g.get_node_mut s with
    | none => simp [CfgGraph.add_edge, hs]
    | some ns =>
      have hmod : (g.modifyNode s (fun n => n.add_outgoing_edge id k)).lookupNode id = none := by
        rw [lookupNode_modifyNode]
        by_cases hid : id = s
        · subst hid
          rw [CfgGraph.get_node_mut, h] at hs
          exact Option.noConfusion hs
        · simp [hid, h]
      simp only [CfgGraph.add_edge, hs, CfgGraph.get_node_mut, hmod]
      cases g.lookupNode s <;> rfl

/-- Witness for claim C9: the freshly constructed graph and the absent id 5. -/
theorem claim_C9_witness :
    CfgGraph.new.lookupNode 5 = none
    ∧ (CfgGraph.new.get_node 5 = none
       ∧ CfgGraph.new.get_node_mut 5 = none
       ∧ CfgGraph.new.node_is_empty 5 = none
       ∧ CfgGraph.new.ends_with_return 5 = none
       ∧ CfgGraph.new.is_orphan 5 = none
       ∧ (∀ d k, CfgGraph.new.add_edge 5 d k = none)
       ∧ (∀ s k, CfgGraph.new.add_edge s 5 k = none)) :=
  ⟨by decide, claim_C9 CfgGraph.new 5 (by decide)⟩

/-- Claim C1 (amended): `compact()` removes exactly the orphan nodes — a
non-orphan node keeps its exact map entry and an orphan's entry is deleted —
and, on a graph satisfying the edge-symmetry invariant, never removes a node
reachable from the entry node through at least one edge. (The unamended
claim fails because the entry node of a fresh graph is reachable from itself
through the empty path yet is removed as an orphan.) -/
theorem claim_C1 (g : CfgGraph) (hnd : g.nodupKeys) :
    (∀ id n, g.lookupNode id = some n → n.is_orphan = false →
       g.compact.lookupNode id = some n)
    ∧ (∀ id n, g.lookupNode id = some n → n.is_orphan = true →
       g.compact.lookupNode id = none)
    ∧ (g.edge_symmetric → ∀ id,
        Relation.TransGen g.step g.get_entry_node_id id →
        g.compact.lookupNode id = g.lookupNode id) := by
  refine ⟨?_, ?_, ?_⟩
  · intro id n h ho
    rw [lookupNode_compact g hnd id, h]
    simp [ho]
  · intro id n h ho
    rw [lookupNode_compact g hnd id, h]
    simp [ho]
  · intro hsym id hreach
    obtain ⟨A, -, hstep⟩ := (Relation.TransGen.tail'_iff).mp hreach
    obtain ⟨nA, hA, e, he, hid⟩ := hstep
    have hmem : (A, nA) ∈ g.nodes := mem_of_lookupNode_eq_some g A nA hA
    have hsym' := hsym
    rw [CfgGraph.edge_symmetric, CfgGraph.symmetricB, List.all_eq_true] at hsym'
    have hpair := hsym' (A, nA) hmem
    rw [Bool.and_eq_true] at hpair
    have hout := hpair.1
    rw [List.all_eq_true] at hout
    have hmir := hout e he
    rw [mirrorsB_eq_true] at hmir
    obtain ⟨nb, hnb, hin⟩ := hmir
    rw [hid] at hnb
    have hno : nb.is_orphan = false := by
      have hlen : nb.incoming.length ≠ 0 := by
        intro hl
        rw [List.length_eq_zero] at hl
        rw [hl] at hin
        exact (List.not_mem_nil _) hin
      unfold CfgNode.is_orphan
      simp [hlen]
    rw [lookupNode_compact g hnd id, hnb]
    simp [hno]

/-- Counterexample to claim C1 as stated: in the freshly constructed graph the
entry node 0 is reachable from the entry node (empty path), yet `compact()`
removes it, because it is an orphan. -/
theorem claim_C1_cex :
    Relation.ReflTransGen CfgGraph.new.step CfgGraph.new.get_entry_node_id 0
    ∧ CfgGraph.new.lookupNode 0 = some (CfgNode.new 0)
    ∧ CfgGraph.new.compact.lookupNode 0 = none :=
  ⟨Relation.ReflTransGen.refl, by decide, by decide⟩

/-- Witness for claim C1 at a concrete symmetric graph in which node 1 is
reachable from the entry node through one edge and survives `compact()`. -/
theorem claim_C1_witness :
    wiredGraph.nodupKeys
    ∧ wiredGraph.edge_symmetric
    ∧ Relation.TransGen wiredGraph.step wiredGraph.get_entry_node_id 1
    ∧ wiredGraph.compact.lookupNode 1 = wiredGraph.lookupNode 1 := by
  have hstep : wiredGraph.step wiredGraph.get_entry_node_id 1 :=
    ⟨CfgNode.mk 0 [] [] [CfgEdge.mk 1 CfgJumpType.Always], by decide,
     CfgEdge.mk 1 CfgJumpType.Always, by decide, rfl⟩
  exact ⟨by decide, by decide, Relation.TransGen.single hstep,
    (claim_C1 wiredGraph (by decide)).2.2 (by decide) 1 (Relation.TransGen.single hstep)⟩

theorem applyOp_preserves_lookup_zero (op : CfgOp) (hop : op ≠ CfgOp.compact)
    (g g' : CfgGraph) (happ : applyOp g op = some g')
    (h0 : g.lookupNode 0 ≠ none) : g'.lookupNode 0 ≠ none := by
  cases op with
  | new_node =>
    simp only [applyOp, Option.some.injEq] at happ
    subst happ
    simp only [CfgGraph.new_node, CfgGraph.lookupNode]
    by_cases hz : (0 : CfgNodeId) = g.next_id
    · rw [← hz, find?_mapInsert_self]
      simp
    · rw [find?_mapInsert_ne _ _ _ _ hz]
      exact h0
  | add_node n =>
    simp only [applyOp, Option.some.injEq] at happ
    subst happ
    simp only [CfgGraph.add_node, CfgGraph.lookupNode]
    by_cases hz : (0 : CfgNodeId) = n.id
    · rw [← hz, find?_mapInsert_self]
      simp
    · rw [find?_mapInsert_ne _ _ _ _ hz]
      exact h0
  | add_edge s d k =>
    simp only [applyOp, CfgGraph.add_edge] at happ
    cases hs : g.get_node_mut s with
    | none =>
      simp only [hs] at happ
      exact Option.noConfusion happ
    | some ns =>
      simp only [hs] at happ
      cases hd : (g.modifyNode s (fun n => n.add_outgoing_edge d k)).get_node_mut d with
      | none =>
        simp only [hd] at happ
        exact Option.noConfusion happ
      | some nd =>
        simp only [hd, Option.some.injEq] at happ
        subst happ
        rw [lookupNode_modifyNode, lookupNode_modifyNode]
        by_cases h1 : (0 : CfgNodeId) = d
        · rw [if_pos h1]
          by_cases h2 : (0 : CfgNodeId) = s
          · rw [if_pos h2]
            simp only [Option.map_eq_none', ne_eq]
            exact h0
          · rw [if_neg h2]
            simp only [Option.map_eq_none', ne_eq]
            exact h0
        · rw [if_neg h1]
          by_cases h2 : (0 : CfgNodeId) = s
          · rw [if_pos h2]
            simp only [Option.map_eq_none', ne_eq]
            exact h0
          · rw [if_neg h2]
            exact h0
  | append_inst i =>
    simp only [applyOp, CfgGraph.append_inst_current] at happ
    cases hc : g.get_node_mut g.get_current_id with
    | none =>
      simp only [hc] at happ
      exact Option.noConfusion happ
    | some nc =>
      simp only [hc, Option.some.injEq] at happ
      subst happ
      rw [lookupNode_modifyNode]
      by_cases h1 : (0 : CfgNodeId) = g.get_current_id
      · rw [if_pos h1]
        simp only [Option.map_eq_none', ne_eq]
        exact h0
      · rw [if_neg h1]
        exact h0
  | compact => exact absurd rfl hop

/-- Claim C2 (amended): `CfgGraph::new` creates the entry node 0, and node 0
stays present under every sequence of `new_node`, `add_node`, `add_edge` and
`append_inst` operations; `compact` however removes node 0 whenever it is
orphan (as it is in a freshly constructed graph), so the unamended "always
present after every operation" fails exactly on `compact`. -/
theorem claim_C2 :
    CfgGraph.new.lookupNode 0 = some (CfgNode.new 0)
    ∧ ∀ ops g, CfgOp.compact ∉ ops → applyOps CfgGraph.new ops = some g →
        g.lookupNode 0 ≠ none := by
  constructor
  · decide
  · suffices h : ∀ (ops : List CfgOp) (g0 g : CfgGraph), g0.lookupNode 0 ≠ none →
        CfgOp.compact ∉ ops → applyOps g0 ops = some g → g.lookupNode 0 ≠ none by
      intro ops g hops happ
      exact h ops CfgGraph.new g (by decide) hops happ
    intro ops
    induction ops with
    | nil =>
      intro g0 g h0 _ happ
      simp only [applyOps, Option.some.injEq] at happ
      subst happ
      exact h0
    | cons op rest ih =>
      intro g0 g h0 hni happ
      simp only [applyOps] at happ
      cases hop : applyOp g0 op with
      | none => rw [hop] at happ; exact Option.noConfusion happ
      | some g1 =>
        rw [hop] at happ
        have hopne : op ≠ CfgOp.compact := by
          intro hc
          exact hni (hc ▸ List.mem_cons_self op rest)
        have hrest : CfgOp.compact ∉ rest := fun hc => hni (List.mem_cons_of_mem op hc)
        exact ih g1 g (applyOp_preserves_lookup_zero op hopne g0 g1 hop h0) hrest happ

/-- Counterexample to claim C2 as stated: applying the operation sequence
`[compact]` to the freshly constructed graph yields a graph in which node 0
is absent. -/
theorem claim_C2_cex :
    ∃ g, applyOps CfgGraph.new [CfgOp.compact] = some g ∧ g.lookupNode 0 = none :=
  ⟨CfgGraph.mk 1 [], by decide, by decide⟩

/-- Witness for claim C2 at the concrete compact-free sequence `[new_node]`. -/
theorem claim_C2_witness :
    CfgOp.compact ∉ [CfgOp.new_node]
    ∧ applyOps CfgGraph.new [CfgOp.new_node] = some twoNodeGraph
    ∧ twoNodeGraph.lookupNode 0 ≠ none :=
  ⟨by decide, by decide,
   claim_C2.2 [CfgOp.new_node] twoNodeGraph (by decide) (by decide)⟩

theorem mem_insertEdge (x e : CfgEdge) (l : List CfgEdge) :
    x ∈ insertEdge e l ↔ x = e ∨ x ∈ l := by
  unfold insertEdge
  by_cases h : e ∈ l
  · rw [if_pos h]
    constructor
    · exact fun hx => Or.inr hx
    · rintro (rfl | hx)
      · exact h
      · exact hx
  · rw [if_neg h]
    exact List.mem_cons

theorem edge_symmetric_iff_symmetricP (g : CfgGraph) (hnd : g.nodupKeys) :
    g.edge_symmetric ↔ g.symmetricP := by
  constructor
  · intro h a na hlook
    have hmem := mem_of_lookupNode_eq_some g a na hlook
    rw [CfgGraph.edge_symmetric, CfgGraph.symmetricB, List.all_eq_true] at h
    have hpair := h (a, na) hmem
    rw [Bool.and_eq_true, List.all_eq_true, List.all_eq_true] at hpair
    constructor
    · intro e he
      exact (mirrorsB_eq_true g a e CfgNode.incoming).mp (hpair.1 e he)
    · intro e he
      exact (mirrorsB_eq_true g a e CfgNode.outgoing).mp (hpair.2 e he)
  · intro h
    rw [CfgGraph.edge_symmetric, CfgGraph.symmetricB, List.all_eq_true]
    intro p hp
    have hlook : g.lookupNode p.1 = some p.2 := by
      rw [CfgGraph.lookupNode, find?_eq_some_of_mem_nodup g.nodes hnd p hp]
      rfl
    obtain ⟨h1, h2⟩ := h p.1 p.2 hlook
    rw [Bool.and_eq_true, List.all_eq_true, List.all_eq_true]
    exact ⟨fun e he => (mirrorsB_eq_true g p.1 e CfgNode.incoming).mpr (h1 e he),
           fun e he => (mirrorsB_eq_true g p.1 e CfgNode.outgoing).mpr (h2 e he)⟩

theorem lookupNode_mapInsert (g : CfgGraph) (next k : CfgNodeId) (v : CfgNode)
    (id : CfgNodeId) :
    (CfgGraph.mk next (mapInsert k v g.nodes)).lookupNode id =
      if id = k then some v else g.lookupNode id := by
  by_cases h : id = k
  · subst h
    simp only [CfgGraph.lookupNode]
    rw [find?_mapInsert_self]
    simp
  · simp only [CfgGraph.lookupNode]
    rw [find?_mapInsert_ne _ _ _ _ h, if_neg h]

theorem nodupKeys_mapInsert (g : CfgGraph) (next k : CfgNodeId) (v : CfgNode)
    (hnd : g.nodupKeys) :
    (CfgGraph.mk next (mapInsert k v g.nodes)).nodupKeys := by
  unfold CfgGraph.nodupKeys at *
  simp only [mapInsert, List.map_cons, List.nodup_cons]
  constructor
  · intro hmem
    obtain ⟨x, hx, hfst⟩ := List.mem_map.mp hmem
    have hne := List.of_mem_filter hx
    simp [hfst] at hne
  · exact hnd.sublist ((List.filter_sublist g.nodes).map Prod.fst)

theorem nodupKeys_modifyNode (g : CfgGraph) (id : CfgNodeId) (f : CfgNode → CfgNode)
    (hnd : g.nodupKeys) :
    (g.modifyNode id f).nodupKeys := by
  unfold CfgGraph.nodupKeys CfgGraph.modifyNode at *
  simp only [List.map_map]
  exact hnd

theorem nodupKeys_compact (g : CfgGraph) (hnd : g.nodupKeys) :
    g.compact.nodupKeys := by
  unfold CfgGraph.nodupKeys CfgGraph.compact at *
  exact hnd.sublist ((List.filter_sublist g.nodes).map Prod.fst)

theorem symmetricP_mapInsert (g : CfgGraph) (next : CfgNodeId) (n : CfgNode)
    (hin : n.incoming = []) (hout : n.outgoing = [])
    (hfresh : g.lookupNode n.id = none) (hp : g.symmetricP) :
    (CfgGraph.mk next (mapInsert n.id n g.nodes)).symmetricP := by
  intro a na hlook
  rw [lookupNode_mapInsert] at hlook
  by_cases ha : a = n.id
  · rw [if_pos ha] at hlook
    injection hlook with hna
    subst hna
    rw [hout, hin]
    exact ⟨fun e he => absurd he (List.not_mem_nil e),
           fun e he => absurd he (List.not_mem_nil e)⟩
  · rw [if_neg ha] at hlook
    obtain ⟨h1, h2⟩ := hp a na hlook
    constructor
    · intro e he
      obtain ⟨nb, hnb, hmb⟩ := h1 e he
      refine ⟨nb, ?_, hmb⟩
      rw [lookupNode_mapInsert]
      have hne : e.node_id ≠ n.id := by
        intro hc
        rw [hc, hfresh] at hnb
        exact Option.noConfusion hnb
      rw [if_neg hne]
      exact hnb
    · intro e he
      obtain ⟨nb, hnb, hmb⟩ := h2 e he
      refine ⟨nb, ?_, hmb⟩
      rw [lookupNode_mapInsert]
      have hne : e.node_id ≠ n.id := by
        intro hc
        rw [hc, hfresh] at hnb
        exact Option.noConfusion hnb
      rw [if_neg hne]
      exact hnb

theorem symmetricP_edges_preserved (g g' : CfgGraph) (f : CfgNodeId → CfgNode → CfgNode)
    (hf_out : ∀ a n, (f a n).outgoing = n.outgoing)
    (hf_in : ∀ a n, (f a n).incoming = n.incoming)
    (hL : ∀ a, g'.lookupNode a = (g.lookupNode a).map (f a))
    (hp : g.symmetricP) : g'.symmetricP := by
  intro a na' hlook'
  rw [hL a] at hlook'
  cases hga : g.lookupNode a with
  | none => rw [hga] at hlook'; exact Option.noConfusion hlook'
  | some na =>
    rw [hga] at hlook'
    injection hlook' with hna'
    subst hna'
    obtain ⟨h1, h2⟩ := hp a na hga
    constructor
    · intro e he
      rw [hf_out] at he
      obtain ⟨nb, hnb, hmb⟩ := h1 e he
      refine ⟨f e.node_id nb, ?_, ?_⟩
      · rw [hL, hnb]
        rfl
      · rw [hf_in]
        exact hmb
    · intro e he
      rw [hf_in] at he
      obtain ⟨nb, hnb, hmb⟩ := h2 e he
      refine ⟨f e.node_id nb, ?_, ?_⟩
      · rw [hL, hnb]
        rfl
      · rw [hf_out]
        exact hmb

theorem symmetricP_compact (g : CfgGraph) (hnd : g.nodupKeys) (hp : g.symmetricP) :
    g.compact.symmetricP := by
  intro a na hlook
  rw [lookupNode_compact g hnd] at hlook
  cases hga : g.lookupNode a with
  | none => rw [hga] at hlook; exact Option.noConfusion hlook
  | some n =>
    simp only [hga] at hlook
    cases ho : n.is_orphan with
    | true => rw [ho] at hlook; simp at hlook
    | false =>
      rw [ho] at hlook
      simp only [Bool.false_eq_true, if_false, Option.some.injEq] at hlook
      subst hlook
      obtain ⟨h1, h2⟩ := hp a n hga
      constructor
      · intro e he
        obtain ⟨nb, hnb, hmb⟩ := h1 e he
        refine ⟨nb, ?_, hmb⟩
        rw [lookupNode_compact g hnd, hnb]
        have hno : nb.is_orphan = false := by
          have hlen : nb.incoming.length ≠ 0 := by
            intro hl
            rw [List.length_eq_zero] at hl
            rw [hl] at hmb
            exact (List.not_mem_nil _) hmb
          unfold CfgNode.is_orphan
          simp [hlen]
        simp [hno]
      · intro e he
        obtain ⟨nb, hnb, hmb⟩ := h2 e he
        refine ⟨nb, ?_, hmb⟩
        rw [lookupNode_compact g hnd, hnb]
        have hno : nb.is_orphan = false := by
          have hlen : nb.outgoing.length ≠ 0 := by
            intro hl
            rw [List.length_eq_zero] at hl
            rw [hl] at hmb
            exact (List.not_mem_nil _) hmb
          unfold CfgNode.is_orphan
          simp [hlen]
        simp [hno]

theorem symmetricP_add_edge (g : CfgGraph) (s d : CfgNodeId) (k : CfgJumpType)
    (ns nd : CfgNode) (hs0 : g.lookupNode s = some ns) (hd0 : g.lookupNode d = some nd)
    (hp : g.symmetricP) :
    ((g.modifyNode s (fun n => n.add_outgoing_edge d k)).modifyNode d
        (fun n => n.add_incoming_edge s k)).symmetricP := by
  have hL : ∀ a, ((g.modifyNode s (fun n => n.add_outgoing_edge d k)).modifyNode d
      (fun n => n.add_incoming_edge s k)).lookupNode a =
      if a = d then
        (if a = s then (g.lookupNode a).map (fun n => n.add_outgoing_edge d k)
         else g.lookupNode a).map (fun n => n.add_incoming_edge s k)
      else
        (if a = s then (g.lookupNode a).map (fun n => n.add_outgoing_edge d k)
         else g.lookupNode a) := by
    intro a
    simp only [lookupNode_modifyNode]
  have hBack : ∀ a n, g.lookupNode a = some n →
      ∃ n', ((g.modifyNode s (fun m => m.add_outgoing_edge d k)).modifyNode d
          (fun m => m.add_incoming_edge s k)).lookupNode a = some n'
        ∧ n'.outgoing = (if a = s then insertEdge (CfgEdge.mk d k) n.outgoing else n.outgoing)
        ∧ n'.incoming = (if a = d then insertEdge (CfgEdge.mk s k) n.incoming
            else n.incoming) := by
    intro a n hn
    rw [hL a, hn]
    by_cases had : a = d
    · by_cases has : a = s
      · refine ⟨(n.add_outgoing_edge d k).add_incoming_edge s k, ?_, ?_, ?_⟩
        · rw [if_pos had, if_pos has]
          rfl
        · rw [if_pos has]
          rfl
        · rw [if_pos had]
          rfl
      · refine ⟨n.add_incoming_edge s k, ?_, ?_, ?_⟩
        · rw [if_pos had, if_neg has]
          rfl
        · rw [if_neg has]
          rfl
        · rw [if_pos had]
          rfl
    · by_cases has : a = s
      · refine ⟨n.add_outgoing_edge d k, ?_, ?_, ?_⟩
        · rw [if_neg had, if_pos has]
          rfl
        · rw [if_pos has]
          rfl
        · rw [if_neg had]
          rfl
      · refine ⟨n, ?_, ?_, ?_⟩
        · rw [if_neg had, if_neg has]
        · rw [if_neg has]
        · rw [if_neg had]
  intro a na' hlook'
  cases hga : g.lookupNode a with
  | none =>
    rw [hL a, hga] at hlook'
    by_cases had : a = d <;> by_cases has : a = s <;> simp [had, has] at hlook'
  | some n =>
    obtain ⟨n', hn', hout', hin'⟩ := hBack a n hga
    rw [hlook'] at hn'
    injection hn' with hh
    subst hh
    obtain ⟨h1, h2⟩ := hp a n hga
    constructor
    · intro e he
      rw [hout'] at he
      by_cases has : a = s
      · rw [if_pos has] at he
        rcases (mem_insertEdge e (CfgEdge.mk d k) _).mp he with rfl | heOld
        · obtain ⟨nd', hnd', hndout, hndin⟩ := hBack d nd hd0
          refine ⟨nd', hnd', ?_⟩
          rw [hndin, if_pos rfl, has]
          exact (mem_insertEdge _ _ _).mpr (Or.inl rfl)
        · obtain ⟨nb, hnb, hmb⟩ := h1 e heOld
          obtain ⟨nb', hnb', hnbout, hnbin⟩ := hBack e.node_id nb hnb
          refine ⟨nb', hnb', ?_⟩
          rw [hnbin]
          by_cases hed : e.node_id = d
          · rw [if_pos hed]
            exact (mem_insertEdge _ _ _).mpr (Or.inr hmb)
          · rw [if_neg hed]
            exact hmb
      · rw [if_neg has] at he
        obtain ⟨nb, hnb, hmb⟩ := h1 e he
        obtain ⟨nb', hnb', hnbout, hnbin⟩ := hBack e.node_id nb hnb
        refine ⟨nb', hnb', ?_⟩
        rw [hnbin]
        by_cases hed : e.node_id = d
        · rw [if_pos hed]
          exact (mem_insertEdge _ _ _).mpr (Or.inr hmb)
        · rw [if_neg hed]
          exact hmb
    · intro e he
      rw [hin'] at he
      by_cases had : a = d
      · rw [if_pos had] at he
        rcases (mem_insertEdge e (CfgEdge.mk s k) _).mp he with rfl | heOld
        · obtain ⟨ns', hns', hnsout, hnsin⟩ := hBack s ns hs0
          refine ⟨ns', hns', ?_⟩
          rw [hnsout, if_pos rfl, had]
          exact (mem_insertEdge _ _ _).mpr (Or.inl rfl)
        · obtain ⟨nb, hnb, hmb⟩ := h2 e heOld
          obtain ⟨nb', hnb', hnbout, hnbin⟩ := hBack e.node_id nb hnb
          refine ⟨nb', hnb', ?_⟩
          rw [hnbout]
          by_cases hes : e.node_id = s
          · rw [if_pos hes]
            exact (mem_insertEdge _ _ _).mpr (Or.inr hmb)
          · rw [if_neg hes]
            exact hmb
      · rw [if_neg had] at he
        obtain ⟨nb, hnb, hmb⟩ := h2 e he
        obtain ⟨nb', hnb', hnbout, hnbin⟩ := hBack e.node_id nb hnb
        refine ⟨nb', hnb', ?_⟩
        rw [hnbout]
        by_cases hes : e.node_id = s
        · rw [if_pos hes]
          exact (mem_insertEdge _ _ _).mpr (Or.inr hmb)
        · rw [if_neg hes]
          exact hmb

/-- Claim C3 (amended): the edge-symmetry invariant holds for the freshly
constructed graph and is preserved by `new_node` (whose fresh id is not yet a
key), `add_edge`, `append_inst` and `compact`; `add_node` preserves it exactly
when the inserted node has empty edge sets and a fresh identifier — inserting
a node with pre-populated edge sets (which the public `add_node` permits, and
the repository's own tests do) can break the invariant, so the unamended
"every graph built through the public mutation operations is symmetric"
fails. -/
theorem claim_C3 :
    CfgGraph.new.edge_symmetric
    ∧ ∀ g : CfgGraph, g.nodupKeys → g.edge_symmetric →
      ((g.lookupNode g.next_id = none → (g.new_node).2.edge_symmetric)
       ∧ (∀ n : CfgNode, n.incoming = [] → n.outgoing = [] →
            g.lookupNode n.id = none → (g.add_node n).edge_symmetric)
       ∧ (∀ s d k g', g.add_edge s d k = some g' → g'.edge_symmetric)
       ∧ (∀ i g', g.append_inst_current i = some g' → g'.edge_symmetric)
       ∧ g.compact.edge_symmetric) := by
  refine ⟨by decide, ?_⟩
  intro g hnd hsymB
  have hp := (edge_symmetric_iff_symmetricP g hnd).mp hsymB
  refine ⟨?_, ?_, ?_, ?_, ?_⟩
  · intro hfresh
    have h2 := symmetricP_mapInsert g (g.next_id + 1) (CfgNode.new g.next_id) rfl rfl
      hfresh hp
    have hnd2 := nodupKeys_mapInsert g (g.next_id + 1) g.next_id (CfgNode.new g.next_id) hnd
    exact (edge_symmetric_iff_symmetricP _ hnd2).mpr h2
  · intro n hin hout hfresh
    have h2 := symmetricP_mapInsert g
      (if g.next_id - 1 < n.id then n.id + 1 else g.next_id) n hin hout hfresh hp
    have hnd2 := nodupKeys_mapInsert g
      (if g.next_id - 1 < n.id then n.id + 1 else g.next_id) n.id n hnd
    exact (edge_symmetric_iff_symmetricP _ hnd2).mpr h2
  · intro s d k g' happ
    simp only [CfgGraph.add_edge] at happ
    cases hs1 : g.get_node_mut s with
    | none =>
      simp only [hs1] at happ
      exact Option.noConfusion happ
    | some ns =>
      simp only [hs1] at happ
      cases hd1 : (g.modifyNode s (fun n => n.add_outgoing_edge d k)).get_node_mut d with
      | none =>
        simp only [hd1] at happ
        exact Option.noConfusion happ
      | some nd1 =>
        simp only [hd1, Option.some.injEq] at happ
        subst happ
        have hd0 : ∃ nd, g.lookupNode d = some nd := by
          rw [CfgGraph.get_node_mut, lookupNode_modifyNode] at hd1
          by_cases hds : d = s
          · rw [if_pos hds] at hd1
            cases hgd : g.lookupNode d with
            | none => rw [hgd] at hd1; exact Option.noConfusion hd1
            | some x => exact ⟨x, rfl⟩
          · rw [if_neg hds] at hd1
            exact ⟨nd1, hd1⟩
        obtain ⟨nd, hd0⟩ := hd0
        have h2 := symmetricP_add_edge g s d k ns nd hs1 hd0 hp
        have hnd2 := nodupKeys_modifyNode _ d (fun n => n.add_incoming_edge s k)
          (nodupKeys_modifyNode g s (fun n => n.add_outgoing_edge d k) hnd)
        exact (edge_symmetric_iff_symmetricP _ hnd2).mpr h2
  · intro i g' happ
    simp only [CfgGraph.append_inst_current] at happ
    cases hc : g.get_node_mut g.get_current_id with
    | none =>
      simp only [hc] at happ
      exact Option.noConfusion happ
    | some nc =>
      simp only [hc, Option.some.injEq] at happ
      subst happ
      have h2 := symmetricP_edges_preserved g
        (g.modifyNode g.get_current_id (fun n => n.append_inst i))
        (fun a n => if a = g.get_current_id then n.append_inst i else n)
        (by
          intro a n
          by_cases h : a = g.get_current_id <;> simp [h, CfgNode.append_inst])
        (by
          intro a n
          by_cases h : a = g.get_current_id <;> simp [h, CfgNode.append_inst])
        (by
          intro a
          rw [lookupNode_modifyNode]
          by_cases h : a = g.get_current_id
          · rw [if_pos h]
            cases g.lookupNode a <;> simp [h]
          · rw [if_neg h]
            cases g.lookupNode a <;> simp [h])
        hp
      have hnd2 := nodupKeys_modifyNode g g.get_current_id (fun n => n.append_inst i) hnd
      exact (edge_symmetric_iff_symmetricP _ hnd2).mpr h2
  · exact (edge_symmetric_iff_symmetricP _ (nodupKeys_compact g hnd)).mpr
      (symmetricP_compact g hnd hp)

/-- Counterexample to claim C3 as stated: building a graph through the public
mutation `add_node` with a node carrying a pre-populated outgoing edge yields
a graph violating the symmetry invariant (node 1 records an outgoing edge to
node 0, node 0 records no matching incoming edge). -/
theorem claim_C3_cex :
    ∃ g, applyOps CfgGraph.new
        [CfgOp.add_node (CfgNode.mk 1 [] [] [CfgEdge.mk 0 CfgJumpType.Always])] = some g
      ∧ ¬ g.edge_symmetric :=
  ⟨CfgGraph.mk 2 [(1, CfgNode.mk 1 [] [] [CfgEdge.mk 0 CfgJumpType.Always]),
                  (0, CfgNode.new 0)],
   by decide, by decide⟩

/-- Witness for claim C3 at the concrete two-node graph and the concrete
mutation `add_edge 0 1 Always`. -/
theorem claim_C3_witness :
    twoNodeGraph.nodupKeys
    ∧ twoNodeGraph.edge_symmetric
    ∧ twoNodeGraph.add_edge 0 1 CfgJumpType.Always = some edgedGraph
    ∧ edgedGraph.edge_symmetric := by
  have h := (claim_C3.2 twoNodeGraph (by decide) (by decide)).2.2.1
    0 1 CfgJumpType.Always edgedGraph (by decide)
  exact ⟨by decide, by decide, by decide, h⟩

namespace Walker

theorem recordsTrace_hook {ε : Type} (ev : Event) :
    RecordsTrace (ε := ε) [ev] (recordHook ev) :=
  fun _ => rfl

theorem recordsTrace_nil {ε : Type} :
    RecordsTrace (ε := ε) [] (fun s => (s, none)) := by
  intro tr
  simp

theorem recordsTrace_seq {ε : Type} {A B : List Event}
    {F G : List Event → List Event × Option ε}
    (hA : RecordsTrace A F) (hB : RecordsTrace B G) :
    RecordsTrace (A ++ B) (hookSeq F G) := by
  intro tr
  unfold hookSeq
  rw [hA tr]
  show G (tr ++ A) = (tr ++ (A ++ B), none)
  rw [hB (tr ++ A), List.append_assoc]

theorem walk_proc_params_aux_record {ε : Type} (p : ProcedureStmt) (ps : List ProcParam) :
    RecordsTrace (ε := ε) (ps.map Event.procParam)
      (walk_proc_params_aux (recordWalker ε) p ps) := by
  induction ps with
  | nil =>
    intro tr
    simp [walk_proc_params_aux]
  | cons param rest ih =>
    have hfun : walk_proc_params_aux (recordWalker ε) p (param :: rest)
        = hookSeq (recordHook (Event.procParam param))
            (walk_proc_params_aux (recordWalker ε) p rest) := by
      funext s
      simp [walk_proc_params_aux, hookSeq, recordWalker]
    rw [hfun, List.map_cons, show (Event.procParam param :: rest.map Event.procParam)
      = [Event.procParam param] ++ rest.map Event.procParam from rfl]
    exact recordsTrace_seq (recordsTrace_hook _) ih

mutual

theorem walk_expr_record {ε : Type} (e : Expression) :
    RecordsTrace (ε := ε) (trace_expr e) (walk_expr (recordWalker ε) e) := by
  cases e with
  | mk ast =>
    cases ast with
    | Literal l =>
      have hfun : walk_expr (recordWalker ε) (Expression.mk (ExpressionAst.Literal l))
          = recordHook (Event.literal l) := by
        funext s
        simp [walk_expr, recordWalker]
      rw [hfun, show trace_expr (Expression.mk (ExpressionAst.Literal l))
        = [Event.literal l] from rfl]
      exact recordsTrace_hook _
    | ProcCall nm ps =>
      have hfun : walk_expr (recordWalker ε) (Expression.mk (ExpressionAst.ProcCall nm ps))
          = hookSeq (recordHook (Event.procCallStart nm))
              (walk_param_exprs (recordWalker ε) ps) := by
        funext s
        simp [walk_expr, walk_proc_call_expr, hookSeq, recordWalker]
      rw [hfun, show trace_expr (Expression.mk (ExpressionAst.ProcCall nm ps))
        = [Event.procCallStart nm] ++ trace_param_exprs ps from rfl]
      exact recordsTrace_seq (recordsTrace_hook _) (walk_param_exprs_record ps)
    | Binary op l r =>
      have hfun : walk_expr (recordWalker ε) (Expression.mk (ExpressionAst.Binary op l r))
          = hookSeq (walk_expr (recordWalker ε) l)
              (hookSeq (walk_expr (recordWalker ε) r)
                (recordHook (Event.binary op))) := by
        funext s
        simp [walk_expr, hookSeq, recordWalker]
      rw [hfun, show trace_expr (Expression.mk (ExpressionAst.Binary op l r))
        = trace_expr l ++ (trace_expr r ++ [Event.binary op]) from by
          simp [trace_expr]]
      exact recordsTrace_seq (walk_expr_record l)
        (recordsTrace_seq (walk_expr_record r) (recordsTrace_hook _))

theorem walk_param_exprs_record {ε : Type} (ps : ExprList) :
    RecordsTrace (ε := ε) (trace_param_exprs ps) (walk_param_exprs (recordWalker ε) ps) := by
  cases ps with
  | nil =>
    intro tr
    simp [walk_param_exprs, trace_param_exprs]
  | cons p rest =>
    have hfun : walk_param_exprs (recordWalker ε) (ExprList.cons p rest)
        = hookSeq (recordHook Event.paramExprStart)
            (hookSeq (walk_expr (recordWalker ε) p)
              (hookSeq (recordHook Event.paramExprEnd)
                (walk_param_exprs (recordWalker ε) rest))) := by
      funext s
      simp [walk_param_exprs, hookSeq, recordWalker]
    rw [hfun, show trace_param_exprs (ExprList.cons p rest)
      = [Event.paramExprStart] ++ (trace_expr p
          ++ ([Event.paramExprEnd] ++ trace_param_exprs rest)) from by
        simp [trace_param_exprs]]
    exact recordsTrace_seq (recordsTrace_hook _)
      (recordsTrace_seq (walk_expr_record p)
        (recordsTrace_seq (recordsTrace_hook _) (walk_param_exprs_record rest)))

end

mutual

theorem walk_stmt_record {ε : Type} (st : Statement) :
    RecordsTrace (ε := ε) (trace_stmt st) (walk_stmt (recordWalker ε) st) := by
  cases st with
  | NOP =>
    have hfun : walk_stmt (recordWalker ε) Statement.NOP = fun s => (s, none) := by
      funext s
      simp [walk_stmt]
    rw [hfun, show trace_stmt Statement.NOP = [] from rfl]
    exact recordsTrace_nil
  | EOF =>
    have hfun : walk_stmt (recordWalker ε) Statement.EOF = fun s => (s, none) := by
      funext s
      simp [walk_stmt]
    rw [hfun, show trace_stmt Statement.EOF = [] from rfl]
    exact recordsTrace_nil
  | Command c =>
    have hfun : walk_stmt (recordWalker ε) (Statement.Command c)
        = recordHook (Event.command c) := by
      funext s
      simp [walk_stmt, walk_command_stmt, recordWalker]
    rw [hfun, show trace_stmt (Statement.Command c) = [Event.command c] from rfl]
    exact recordsTrace_hook _
  | Direction d =>
    have hfun : walk_stmt (recordWalker ε) (Statement.Direction d)
        = hookSeq (walk_expr (recordWalker ε) d.expr) (recordHook Event.direct) := by
      funext s
      simp [walk_stmt, walk_direct_stmt, hookSeq, recordWalker]
    rw [hfun, show trace_stmt (Statement.Direction d)
      = trace_expr d.expr ++ [Event.direct] from by simp [trace_stmt]]
    exact recordsTrace_seq (walk_expr_record d.expr) (recordsTrace_hook _)
  | Make m =>
    have hfun : walk_stmt (recordWalker ε) (Statement.Make m)
        = hookSeq (walk_expr (recordWalker ε) m.expr)
            (recordHook (trace_make_kind m.kind)) := by
      funext s
      cases hk : m.kind <;>
        simp [walk_stmt, walk_make_stmt, hookSeq, recordWalker, hk, trace_make_kind]
    rw [hfun, show trace_stmt (Statement.Make m)
      = trace_expr m.expr ++ [trace_make_kind m.kind] from by simp [trace_stmt]]
    exact recordsTrace_seq (walk_expr_record m.expr) (recordsTrace_hook _)
  | If i => exact walk_if_record i
  | Repeat r => exact walk_repeat_record r
  | Procedure p => exact walk_proc_record p

theorem walk_if_record {ε : Type} (i : IfStmt) :
    RecordsTrace (ε := ε) (trace_stmt (Statement.If i))
      (walk_stmt (recordWalker ε) (Statement.If i)) := by
  cases i with
  | mk cond tb fb =>
    cases fb with
    | noneB =>
      have hfun : walk_stmt (recordWalker ε)
          (Statement.If (IfStmt.mk cond tb OptBlock.noneB))
          = hookSeq (walk_expr (recordWalker ε) cond)
              (hookSeq (walk_block_stmt (recordWalker ε) tb) (fun s => (s, none))) := by
        funext s
        simp [walk_stmt, walk_if_stmt, hookSeq]
      rw [hfun, show trace_stmt (Statement.If (IfStmt.mk cond tb OptBlock.noneB))
        = trace_expr cond ++ (trace_block tb ++ []) from by simp [trace_stmt]]
      exact recordsTrace_seq (walk_expr_record cond)
        (recordsTrace_seq (walk_block_record tb) recordsTrace_nil)
    | someB b =>
      have hfun : walk_stmt (recordWalker ε)
          (Statement.If (IfStmt.mk cond tb (OptBlock.someB b)))
          = hookSeq (walk_expr (recordWalker ε) cond)
              (hookSeq (walk_block_stmt (recordWalker ε) tb) (walk_block_stmt (recordWalker ε) b)) := by
        funext s
        simp [walk_stmt, walk_if_stmt, hookSeq]
      rw [hfun, show trace_stmt (Statement.If (IfStmt.mk cond tb (OptBlock.someB b)))
        = trace_expr cond ++ (trace_block tb ++ trace_block b) from by simp [trace_stmt]]
      exact recordsTrace_seq (walk_expr_record cond)
        (recordsTrace_seq (walk_block_record tb) (walk_block_record b))

theorem walk_repeat_record {ε : Type} (r : RepeatStmt) :
    RecordsTrace (ε := ε) (trace_stmt (Statement.Repeat r))
      (walk_stmt (recordWalker ε) (Statement.Repeat r)) := by
  cases r with
  | mk cnt blk =>
    have hfun : walk_stmt (recordWalker ε) (Statement.Repeat (RepeatStmt.mk cnt blk))
        = hookSeq (walk_expr (recordWalker ε) cnt) (walk_block_stmt (recordWalker ε) blk) := by
      funext s
      simp [walk_stmt, walk_repeat_stmt, hookSeq]
    rw [hfun, show trace_stmt (Statement.Repeat (RepeatStmt.mk cnt blk))
      = trace_expr cnt ++ trace_block blk from by simp [trace_stmt]]
    exact recordsTrace_seq (walk_expr_record cnt) (walk_block_record blk)

theorem walk_proc_record {ε : Type} (p : ProcedureStmt) :
    RecordsTrace (ε := ε) (trace_stmt (Statement.Procedure p))
      (walk_stmt (recordWalker ε) (Statement.Procedure p)) := by
  cases p with
  | mk nm ps blk =>
    cases blk with
    | mk sts =>
      have hfun : walk_stmt (recordWalker ε)
          (Statement.Procedure (ProcedureStmt.mk nm ps (BlockStatement.mk sts)))
          = hookSeq (recordHook (Event.procStart nm))
              (hookSeq (walk_proc_params_aux (recordWalker ε)
                  (ProcedureStmt.mk nm ps (BlockStatement.mk sts)) ps)
                (hookSeq (walk_stmt_list (recordWalker ε) sts)
                  (recordHook (Event.procEnd nm)))) := by
        funext s
        simp [walk_stmt, walk_proc_stmt, walk_proc_params, hookSeq, recordWalker,
          ProcedureStmt.name, ProcedureStmt.params]
      rw [hfun, show trace_stmt
          (Statement.Procedure (ProcedureStmt.mk nm ps (BlockStatement.mk sts)))
        = [Event.procStart nm] ++ (ps.map Event.procParam
            ++ (trace_stmt_list sts ++ [Event.procEnd nm])) from by simp [trace_stmt]]
      exact recordsTrace_seq (recordsTrace_hook _)
        (recordsTrace_seq (walk_proc_params_aux_record _ ps)
          (recordsTrace_seq (walk_stmt_list_record sts) (recordsTrace_hook _)))

theorem walk_block_record {ε : Type} (b : BlockStatement) :
    RecordsTrace (ε := ε) (trace_block b) (walk_block_stmt (recordWalker ε) b) := by
  cases b with
  | mk sts =>
    have hfun : walk_block_stmt (recordWalker ε) (BlockStatement.mk sts)
        = hookSeq (recordHook Event.blockStart)
            (hookSeq (walk_stmt_list (recordWalker ε) sts)
              (recordHook Event.blockEnd)) := by
      funext s
      simp [walk_block_stmt, hookSeq, recordWalker]
    rw [hfun, show trace_block (BlockStatement.mk sts)
      = [Event.blockStart] ++ (trace_stmt_list sts ++ [Event.blockEnd]) from by
        simp [trace_block]]
    exact recordsTrace_seq (recordsTrace_hook _)
      (recordsTrace_seq (walk_stmt_list_record sts) (recordsTrace_hook _))

theorem walk_stmt_list_record {ε : Type} (sts : StmtList) :
    RecordsTrace (ε := ε) (trace_stmt_list sts) (walk_stmt_list (recordWalker ε) sts) := by
  cases sts with
  | nil =>
    intro tr
    simp [walk_stmt_list, trace_stmt_list]
  | cons st rest =>
    have hfun : walk_stmt_list (recordWalker ε) (StmtList.cons st rest)
        = hookSeq (walk_stmt (recordWalker ε) st)
            (walk_stmt_list (recordWalker ε) rest) := by
      funext s
      simp [walk_stmt_list, hookSeq]
    rw [hfun, show trace_stmt_list (StmtList.cons st rest)
      = trace_stmt st ++ trace_stmt_list rest from rfl]
    exact recordsTrace_seq (walk_stmt_record st) (walk_stmt_list_record rest)

end

theorem failsAt_hook {ε : Type} (n : Nat) (err : ε) (ev : Event) :
    FailsAt n err [ev] (failHook n err ev) := by
  intro tr
  unfold failHook
  by_cases h : tr.length = n
  · have hc : tr.length ≤ n ∧ n < tr.length + ([ev] : List Event).length := by
      simp
      omega
    rw [if_pos hc, if_pos h]
    have htake : (tr ++ [ev]).take (n + 1) = tr ++ [ev] :=
      List.take_of_length_le (by simp [h])
    rw [htake]
  · have hc : ¬(tr.length ≤ n ∧ n < tr.length + ([ev] : List Event).length) := by
      simp
      omega
    rw [if_neg hc, if_neg h]

theorem failsAt_nil {ε : Type} (n : Nat) (err : ε) :
    FailsAt n err [] (fun s => (s, none)) := by
  intro tr
  have hc : ¬(tr.length ≤ n ∧ n < tr.length + ([] : List Event).length) := by
    simp
  rw [if_neg hc]
  simp

theorem failsAt_seq {ε : Type} {n : Nat} {err : ε} {A B : List Event}
    {F G : List Event → List Event × Option ε}
    (hA : FailsAt n err A F) (hB : FailsAt n err B G) :
    FailsAt n err (A ++ B) (hookSeq F G) := by
  intro tr
  unfold hookSeq
  rw [hA tr]
  by_cases hc : tr.length ≤ n ∧ n < tr.length + A.length
  · rw [if_pos hc]
    have hc2 : tr.length ≤ n ∧ n < tr.length + (A ++ B).length := by
      simp only [List.length_append]
      omega
    rw [if_pos hc2]
    show ((tr ++ A).take (n + 1), some err) = ((tr ++ (A ++ B)).take (n + 1), some err)
    have htake : (tr ++ (A ++ B)).take (n + 1) = (tr ++ A).take (n + 1) := by
      rw [← List.append_assoc]
      exact List.take_append_of_le_length (by simp only [List.length_append]; omega)
    rw [htake]
  · rw [if_neg hc]
    show G (tr ++ A) = _
    rw [hB (tr ++ A)]
    by_cases hc2 : (tr ++ A).length ≤ n ∧ n < (tr ++ A).length + B.length
    · rw [if_pos hc2]
      simp only [List.length_append] at hc hc2
      have hc3 : tr.length ≤ n ∧ n < tr.length + (A ++ B).length := by
        simp only [List.length_append]
        omega
      rw [if_pos hc3, List.append_assoc]
    · rw [if_neg hc2]
      simp only [List.length_append] at hc hc2
      have hc3 : ¬(tr.length ≤ n ∧ n < tr.length + (A ++ B).length) := by
        simp only [List.length_append]
        omega
      rw [if_neg hc3, List.append_assoc]

theorem walk_proc_params_aux_fail {ε : Type} (n : Nat) (err : ε) (p : ProcedureStmt)
    (ps : List ProcParam) :
    FailsAt n err (ps.map Event.procParam)
      (walk_proc_params_aux (failWalker n err) p ps) := by
  induction ps with
  | nil =>
    have hfun : walk_proc_params_aux (failWalker n err) p [] = fun s => (s, none) := by
      funext s
      simp [walk_proc_params_aux]
    rw [hfun, List.map_nil]
    exact failsAt_nil n err
  | cons param rest ih =>
    have hfun : walk_proc_params_aux (failWalker n err) p (param :: rest)
        = hookSeq (failHook n err (Event.procParam param))
            (walk_proc_params_aux (failWalker n err) p rest) := by
      funext s
      simp [walk_proc_params_aux, hookSeq, failWalker]
    rw [hfun, List.map_cons, show (Event.procParam param :: rest.map Event.procParam)
      = [Event.procParam param] ++ rest.map Event.procParam from rfl]
    exact failsAt_seq (failsAt_hook n err _) ih

mutual

theorem walk_expr_fail {ε : Type} (n : Nat) (err : ε) (e : Expression) :
    FailsAt n err (trace_expr e) (walk_expr (failWalker n err) e) := by
  cases e with
  | mk ast =>
    cases ast with
    | Literal l =>
      have hfun : walk_expr (failWalker n err) (Expression.mk (ExpressionAst.Literal l))
          = failHook n err (Event.literal l) := by
        funext s
        simp [walk_expr, failWalker]
      rw [hfun, show trace_expr (Expression.mk (ExpressionAst.Literal l))
        = [Event.literal l] from rfl]
      exact failsAt_hook n err _
    | ProcCall nm ps =>
      have hfun : walk_expr (failWalker n err) (Expression.mk (ExpressionAst.ProcCall nm ps))
          = hookSeq (failHook n err (Event.procCallStart nm))
              (walk_param_exprs (failWalker n err) ps) := by
        funext s
        simp [walk_expr, walk_proc_call_expr, hookSeq, failWalker]
      rw [hfun, show trace_expr (Expression.mk (ExpressionAst.ProcCall nm ps))
        = [Event.procCallStart nm] ++ trace_param_exprs ps from rfl]
      exact failsAt_seq (failsAt_hook n err _) (walk_param_exprs_fail n err ps)
    | Binary op l r =>
      have hfun : walk_expr (failWalker n err) (Expression.mk (ExpressionAst.Binary op l r))
          = hookSeq (walk_expr (failWalker n err) l)
              (hookSeq (walk_expr (failWalker n err) r)
                (failHook n err (Event.binary op))) := by
        funext s
        simp [walk_expr, hookSeq, failWalker]
      rw [hfun, show trace_expr (Expression.mk (ExpressionAst.Binary op l r))
        = trace_expr l ++ (trace_expr r ++ [Event.binary op]) from by
          simp [trace_expr]]
      exact failsAt_seq (walk_expr_fail n err l)
        (failsAt_seq (walk_expr_fail n err r) (failsAt_hook n err _))

theorem walk_param_exprs_fail {ε : Type} (n : Nat) (err : ε) (ps : ExprList) :
    FailsAt n err (trace_param_exprs ps) (walk_param_exprs (failWalker n err) ps) := by
  cases ps with
  | nil =>
    have hfun : walk_param_exprs (failWalker n err) ExprList.nil = fun s => (s, none) := by
      funext s
      simp [walk_param_exprs]
    rw [hfun, show trace_param_exprs ExprList.nil = [] from rfl]
    exact failsAt_nil n err
  | cons p rest =>
    have hfun : walk_param_exprs (failWalker n err) (ExprList.cons p rest)
        = hookSeq (failHook n err Event.paramExprStart)
            (hookSeq (walk_expr (failWalker n err) p)
              (hookSeq (failHook n err Event.paramExprEnd)
                (walk_param_exprs (failWalker n err) rest))) := by
      funext s
      simp [walk_param_exprs, hookSeq, failWalker]
    rw [hfun, show trace_param_exprs (ExprList.cons p rest)
      = [Event.paramExprStart] ++ (trace_expr p
          ++ ([Event.paramExprEnd] ++ trace_param_exprs rest)) from by
        simp [trace_param_exprs]]
    exact failsAt_seq (failsAt_hook n err _)
      (failsAt_seq (walk_expr_fail n err p)
        (failsAt_seq (failsAt_hook n err _) (walk_param_exprs_fail n err rest)))

end

mutual

theorem walk_stmt_fail {ε : Type} (n : Nat) (err : ε) (st : Statement) :
    FailsAt n err (trace_stmt st) (walk_stmt (failWalker n err) st) := by
  cases st with
  | NOP =>
    have hfun : walk_stmt (failWalker n err) Statement.NOP = fun s => (s, none) := by
      funext s
      simp [walk_stmt]
    rw [hfun, show trace_stmt Statement.NOP = [] from rfl]
    exact failsAt_nil n err
  | EOF =>
    have hfun : walk_stmt (failWalker n err) Statement.EOF = fun s => (s, none) := by
      funext s
      simp [walk_stmt]
    rw [hfun, show trace_stmt Statement.EOF = [] from rfl]
    exact failsAt_nil n err
  | Command c =>
    have hfun : walk_stmt (failWalker n err) (Statement.Command c)
        = failHook n err (Event.command c) := by
      funext s
      simp [walk_stmt, walk_command_stmt, failWalker]
    rw [hfun, show trace_stmt (Statement.Command c) = [Event.command c] from rfl]
    exact failsAt_hook n err _
  | Direction d =>
    have hfun : walk_stmt (failWalker n err) (Statement.Direction d)
        = hookSeq (walk_expr (failWalker n err) d.expr) (failHook n err Event.direct) := by
      funext s
      simp [walk_stmt, walk_direct_stmt, hookSeq, failWalker]
    rw [hfun, show trace_stmt (Statement.Direction d)
      = trace_expr d.expr ++ [Event.direct] from by simp [trace_stmt]]
    exact failsAt_seq (walk_expr_fail n err d.expr) (failsAt_hook n err _)
  | Make m =>
    have hfun : walk_stmt (failWalker n err) (Statement.Make m)
        = hookSeq (walk_expr (failWalker n err) m.expr)
            (failHook n err (trace_make_kind m.kind)) := by
      funext s
      cases hk : m.kind <;>
        simp [walk_stmt, walk_make_stmt, hookSeq, failWalker, hk, trace_make_kind]
    rw [hfun, show trace_stmt (Statement.Make m)
      = trace_expr m.expr ++ [trace_make_kind m.kind] from by simp [trace_stmt]]
    exact failsAt_seq (walk_expr_fail n err m.expr) (failsAt_hook n err _)
  | If i => exact walk_if_fail n err i
  | Repeat r => exact walk_repeat_fail n err r
  | Procedure p => exact walk_proc_fail n err p

theorem walk_if_fail {ε : Type} (n : Nat) (err : ε) (i : IfStmt) :
    FailsAt n err (trace_stmt (Statement.If i))
      (walk_stmt (failWalker n err) (Statement.If i)) := by
  cases i with
  | mk cond tb fb =>
    cases fb with
    | noneB =>
      have hfun : walk_stmt (failWalker n err)
          (Statement.If (IfStmt.mk cond tb OptBlock.noneB))
          = hookSeq (walk_expr (failWalker n err) cond)
              (hookSeq (walk_block_stmt (failWalker n err) tb) (fun s => (s, none))) := by
        funext s
        simp [walk_stmt, walk_if_stmt, hookSeq]
      rw [hfun, show trace_stmt (Statement.If (IfStmt.mk cond tb OptBlock.noneB))
        = trace_expr cond ++ (trace_block tb ++ []) from by simp [trace_stmt]]
      exact failsAt_seq (walk_expr_fail n err cond)
        (failsAt_seq (walk_block_fail n err tb) (failsAt_nil n err))
    | someB b =>
      have hfun : walk_stmt (failWalker n err)
          (Statement.If (IfStmt.mk cond tb (OptBlock.someB b)))
          = hookSeq (walk_expr (failWalker n err) cond)
              (hookSeq (walk_block_stmt (failWalker n err) tb)
                (walk_block_stmt (failWalker n err) b)) := by
        funext s
        simp [walk_stmt, walk_if_stmt, hookSeq]
      rw [hfun, show trace_stmt (Statement.If (IfStmt.mk cond tb (OptBlock.someB b)))
        = trace_expr cond ++ (trace_block tb ++ trace_block b) from by simp [trace_stmt]]
      exact failsAt_seq (walk_expr_fail n err cond)
        (failsAt_seq (walk_block_fail n err tb) (walk_block_fail n err b))

theorem walk_repeat_fail {ε : Type} (n : Nat) (err : ε) (r : RepeatStmt) :
    FailsAt n err (trace_stmt (Statement.Repeat r))
      (walk_stmt (failWalker n err) (Statement.Repeat r)) := by
  cases r with
  | mk cnt blk =>
    have hfun : walk_stmt (failWalker n err) (Statement.Repeat (RepeatStmt.mk cnt blk))
        = hookSeq (walk_expr (failWalker n err) cnt)
            (walk_block_stmt (failWalker n err) blk) := by
      funext s
      simp [walk_stmt, walk_repeat_stmt, hookSeq]
    rw [hfun, show trace_stmt (Statement.Repeat (RepeatStmt.mk cnt blk))
      = trace_expr cnt ++ trace_block blk from by simp [trace_stmt]]
    exact failsAt_seq (walk_expr_fail n err cnt) (walk_block_fail n err blk)

theorem walk_proc_fail {ε : Type} (n : Nat) (err : ε) (p : ProcedureStmt) :
    FailsAt n err (trace_stmt (Statement.Procedure p))
      (walk_stmt (failWalker n err) (Statement.Procedure p)) := by
  cases p with
  | mk nm ps blk =>
    cases blk with
    | mk sts =>
      have hfun : walk_stmt (failWalker n err)
          (Statement.Procedure (ProcedureStmt.mk nm ps (BlockStatement.mk sts)))
          = hookSeq (failHook n err (Event.procStart nm))
              (hookSeq (walk_proc_params_aux (failWalker n err)
                  (ProcedureStmt.mk nm ps (BlockStatement.mk sts)) ps)
                (hookSeq (walk_stmt_list (failWalker n err) sts)
                  (failHook n err (Event.procEnd nm)))) := by
        funext s
        simp [walk_stmt, walk_proc_stmt, walk_proc_params, hookSeq, failWalker,
          ProcedureStmt.name, ProcedureStmt.params]
      rw [hfun, show trace_stmt
          (Statement.Procedure (ProcedureStmt.mk nm ps (BlockStatement.mk sts)))
        = [Event.procStart nm] ++ (ps.map Event.procParam
            ++ (trace_stmt_list sts ++ [Event.procEnd nm])) from by simp [trace_stmt]]
      exact failsAt_seq (failsAt_hook n err _)
        (failsAt_seq (walk_proc_params_aux_fail n err _ ps)
          (failsAt_seq (walk_stmt_list_fail n err sts) (failsAt_hook n err _)))

theorem walk_block_fail {ε : Type} (n : Nat) (err : ε) (b : BlockStatement) :
    FailsAt n err (trace_block b) (walk_block_stmt (failWalker n err) b) := by
  cases b with
  | mk sts =>
    have hfun : walk_block_stmt (failWalker n err) (BlockStatement.mk sts)
        = hookSeq (failHook n err Event.blockStart)
            (hookSeq (walk_stmt_list (failWalker n err) sts)
              (failHook n err Event.blockEnd)) := by
      funext s
      simp [walk_block_stmt, hookSeq, failWalker]
    rw [hfun, show trace_block (BlockStatement.mk sts)
      = [Event.blockStart] ++ (trace_stmt_list sts ++ [Event.blockEnd]) from by
        simp [trace_block]]
    exact failsAt_seq (failsAt_hook n err _)
      (failsAt_seq (walk_stmt_list_fail n err sts) (failsAt_hook n err _))

theorem walk_stmt_list_fail {ε : Type} (n : Nat) (err : ε) (sts : StmtList) :
    FailsAt n err (trace_stmt_list sts) (walk_stmt_list (failWalker n err) sts) := by
  cases sts with
  | nil =>
    have hfun : walk_stmt_list (failWalker n err) StmtList.nil = fun s => (s, none) := by
      funext s
      simp [walk_stmt_list]
    rw [hfun, show trace_stmt_list StmtList.nil = [] from rfl]
    exact failsAt_nil n err
  | cons st rest =>
    have hfun : walk_stmt_list (failWalker n err) (StmtList.cons st rest)
        = hookSeq (walk_stmt (failWalker n err) st)
            (walk_stmt_list (failWalker n err) rest) := by
      funext s
      simp [walk_stmt_list, hookSeq]
    rw [hfun, show trace_stmt_list (StmtList.cons st rest)
      = trace_stmt st ++ trace_stmt_list rest from rfl]
    exact failsAt_seq (walk_stmt_fail n err st) (walk_stmt_list_fail n err rest)

end

mutual

theorem procCallEnd_notin_trace_expr (e : Expression) (nm : String) :
    Event.procCallEnd nm ∉ trace_expr e := by
  cases e with
  | mk ast =>
    cases ast with
    | Literal l => simp [trace_expr]
    | ProcCall nm2 ps =>
      simp only [trace_expr, List.mem_cons]
      rintro (h | h)
      · exact Event.noConfusion h
      · exact procCallEnd_notin_params ps nm h
    | Binary op l r =>
      simp only [trace_expr, List.mem_append, List.mem_singleton]
      rintro ((h | h) | h)
      · exact procCallEnd_notin_trace_expr l nm h
      · exact procCallEnd_notin_trace_expr r nm h
      · exact Event.noConfusion h

theorem procCallEnd_notin_params (ps : ExprList) (nm : String) :
    Event.procCallEnd nm ∉ trace_param_exprs ps := by
  cases ps with
  | nil => simp [trace_param_exprs]
  | cons p rest =>
    simp only [trace_param_exprs, List.mem_cons, List.mem_append]
    rintro (h | (h | (h | h)))
    · exact Event.noConfusion h
    · exact procCallEnd_notin_trace_expr p nm h
    · exact Event.noConfusion h
    · exact procCallEnd_notin_params rest nm h

end

mutual

theorem procCallEnd_notin_trace_stmt (st : Statement) (nm : String) :
    Event.procCallEnd nm ∉ trace_stmt st := by
  cases st with
  | NOP => simp [trace_stmt]
  | EOF => simp [trace_stmt]
  | Command c =>
    simp only [trace_stmt, List.mem_singleton]
    exact fun h => Event.noConfusion h
  | Direction d =>
    simp only [trace_stmt, List.mem_append, List.mem_singleton]
    rintro (h | h)
    · exact procCallEnd_notin_trace_expr d.expr nm h
    · exact Event.noConfusion h
  | Make m =>
    simp only [trace_stmt, List.mem_append, List.mem_singleton]
    rintro (h | h)
    · exact procCallEnd_notin_trace_expr m.expr nm h
    · cases hk : m.kind <;> rw [hk] at h <;> exact Event.noConfusion h
  | If i =>
    cases i with
    | mk cond tb fb =>
      cases fb with
      | noneB =>
        simp only [trace_stmt, List.mem_append]
        rintro ((h | h) | h)
        · exact procCallEnd_notin_trace_expr cond nm h
        · exact procCallEnd_notin_trace_block tb nm h
        · exact absurd h (List.not_mem_nil _)
      | someB b =>
        simp only [trace_stmt, List.mem_append]
        rintro ((h | h) | h)
        · exact procCallEnd_notin_trace_expr cond nm h
        · exact procCallEnd_notin_trace_block tb nm h
        · exact procCallEnd_notin_trace_block b nm h
  | Repeat r =>
    cases r with
    | mk cnt blk =>
      simp only [trace_stmt, List.mem_append]
      rintro (h | h)
      · exact procCallEnd_notin_trace_expr cnt nm h
      · exact procCallEnd_notin_trace_block blk nm h
  | Procedure p =>
    cases p with
    | mk pn ps blk =>
      cases blk with
      | mk sts =>
        simp only [trace_stmt, List.mem_cons, List.mem_append, List.mem_singleton,
          List.mem_map]
        rintro (h | ((⟨param, -, h⟩ | h) | (h | hnil)))
        · exact Event.noConfusion h
        · exact Event.noConfusion h
        · exact procCallEnd_notin_trace_stmt_list sts nm h
        · exact Event.noConfusion h
        · exact absurd hnil (List.not_mem_nil _)

theorem procCallEnd_notin_trace_block (b : BlockStatement) (nm : String) :
    Event.procCallEnd nm ∉ trace_block b := by
  cases b with
  | mk sts =>
    simp only [trace_block, List.mem_cons, List.mem_append, List.mem_singleton]
    rintro (h | (h | (h | hnil)))
    · exact Event.noConfusion h
    · exact procCallEnd_notin_trace_stmt_list sts nm h
    · exact Event.noConfusion h
    · exact absurd hnil (List.not_mem_nil _)

theorem procCallEnd_notin_trace_stmt_list (sts : StmtList) (nm : String) :
    Event.procCallEnd nm ∉ trace_stmt_list sts := by
  cases sts with
  | nil => simp [trace_stmt_list]
  | cons st rest =>
    simp only [trace_stmt_list, List.mem_append]
    rintro (h | h)
    · exact procCallEnd_notin_trace_stmt st nm h
    · exact procCallEnd_notin_trace_stmt_list rest nm h

end

end Walker

/-- Claim C4: the walker is fail-fast. Under the instrumented walker whose
hooks record their events, if the hook invocation of index `n` falls inside
the traversal and reports an error, then `walk_ast` returns exactly that
error, and the recorded trace is exactly the first `n + 1` events of the full
traversal trace: the failing hook fired, and no statement, expression or hook
after the failing point was visited. (The mutually proved `walk_*` lemmas
state the same property for every walk method.) -/
theorem claim_C4 {ε : Type} (ast : Walker.Ast) (n : Nat) (err : ε)
    (h : n < (Walker.trace_ast ast).length) :
    Walker.walk_ast (Walker.failWalker n err) ast []
      = ((Walker.trace_ast ast).take (n + 1), some err)
    ∧ Walker.walk_ast (Walker.recordWalker ε) ast [] = (Walker.trace_ast ast, none) := by
  constructor
  · have h2 := Walker.walk_stmt_list_fail n err ast.statements []
    have hc : ([] : List Walker.Event).length ≤ n
        ∧ n < ([] : List Walker.Event).length
            + (Walker.trace_stmt_list ast.statements).length := by
      refine ⟨Nat.zero_le n, ?_⟩
      simpa [Walker.trace_ast] using h
    rw [if_pos hc] at h2
    simpa [Walker.walk_ast, Walker.trace_ast] using h2
  · have h2 := Walker.walk_stmt_list_record (ε := ε) ast.statements []
    simpa [Walker.walk_ast, Walker.trace_ast] using h2

/-- Witness for claim C4 at a one-statement program whose single hook
invocation (index 0) fails with error 37. -/
theorem claim_C4_witness :
    (0 < (Walker.trace_ast (Walker.Ast.mk (Walker.StmtList.cons
        (Walker.Statement.Command Walker.CommandStmt.PenUp) Walker.StmtList.nil))).length)
    ∧ (Walker.walk_ast (Walker.failWalker 0 (37 : Nat))
        (Walker.Ast.mk (Walker.StmtList.cons
          (Walker.Statement.Command Walker.CommandStmt.PenUp) Walker.StmtList.nil)) []
      = ((Walker.trace_ast (Walker.Ast.mk (Walker.StmtList.cons
          (Walker.Statement.Command Walker.CommandStmt.PenUp)
          Walker.StmtList.nil))).take 1, some 37)
    ∧ Walker.walk_ast (Walker.recordWalker Nat)
        (Walker.Ast.mk (Walker.StmtList.cons
          (Walker.Statement.Command Walker.CommandStmt.PenUp) Walker.StmtList.nil)) []
      = (Walker.trace_ast (Walker.Ast.mk (Walker.StmtList.cons
          (Walker.Statement.Command Walker.CommandStmt.PenUp) Walker.StmtList.nil)),
         none)) :=
  ⟨by simp [Walker.trace_ast, Walker.trace_stmt_list, Walker.trace_stmt],
   claim_C4 (Walker.Ast.mk (Walker.StmtList.cons
      (Walker.Statement.Command Walker.CommandStmt.PenUp) Walker.StmtList.nil)) 0 37
    (by simp [Walker.trace_ast, Walker.trace_stmt_list, Walker.trace_stmt])⟩

/-- Claim C5: for a procedure statement the recording walker fires
`on_proc_start`, then `on_proc_param` once per parameter in declaration
order, then visits the body's statements directly via `walk_stmt` (the
second conjunct shows the block path for contrast: only `walk_block_stmt`
brackets a statement list with the block hooks, so `on_block_stmt_start` and
`on_block_stmt_end` do not fire for the procedure body), and finally
`on_proc_end`. -/
theorem claim_C5 {ε : Type} (nm : String) (ps : List Walker.ProcParam)
    (sts : Walker.StmtList) (tr : List Walker.Event) :
    Walker.walk_stmt (Walker.recordWalker ε)
        (Walker.Statement.Procedure (Walker.ProcedureStmt.mk nm ps
          (Walker.BlockStatement.mk sts))) tr
      = (tr ++ (Walker.Event.procStart nm :: (ps.map Walker.Event.procParam
          ++ Walker.trace_stmt_list sts ++ [Walker.Event.procEnd nm])), none)
    ∧ Walker.walk_block_stmt (Walker.recordWalker ε) (Walker.BlockStatement.mk sts) tr
      = (tr ++ (Walker.Event.blockStart
          :: (Walker.trace_stmt_list sts ++ [Walker.Event.blockEnd])), none) := by
  constructor
  · have h := Walker.walk_proc_record (ε := ε)
      (Walker.ProcedureStmt.mk nm ps (Walker.BlockStatement.mk sts)) tr
    simpa [Walker.trace_stmt] using h
  · have h := Walker.walk_block_record (ε := ε) (Walker.BlockStatement.mk sts) tr
    simpa [Walker.trace_block] using h

/-- Claim C10: the traversal never invokes `on_proc_call_expr_end` — under
the recording walker (which records that hook too, were it ever invoked) no
trace of any AST contains its event — while `walk_proc_call_expr` does fire
`on_proc_call_expr_start` and the per-argument parameter-expression hooks. -/
theorem claim_C10 {ε : Type} (ast : Walker.Ast) :
    (∀ nm, Walker.Event.procCallEnd nm
      ∉ (Walker.walk_ast (Walker.recordWalker ε) ast []).1)
    ∧ (∀ nm ps tr, Walker.walk_proc_call_expr (Walker.recordWalker ε) nm ps tr
        = (tr ++ (Walker.Event.procCallStart nm :: Walker.trace_param_exprs ps),
           none)) := by
  constructor
  · intro nm
    have h := Walker.walk_stmt_list_record (ε := ε) ast.statements []
    rw [show Walker.walk_ast (Walker.recordWalker ε) ast
      = Walker.walk_stmt_list (Walker.recordWalker ε) ast.statements from rfl, h]
    simp only [List.nil_append]
    exact Walker.procCallEnd_notin_trace_stmt_list ast.statements nm
  · intro nm ps tr
    have hfun : Walker.walk_proc_call_expr (Walker.recordWalker ε) nm ps
        = Walker.hookSeq (Walker.recordHook (Walker.Event.procCallStart nm))
            (Walker.walk_param_exprs (Walker.recordWalker ε) ps) := by
      funext s
      simp [Walker.walk_proc_call_expr, Walker.hookSeq, Walker.recordWalker]
    rw [hfun]
    have h := Walker.recordsTrace_seq
      (Walker.recordsTrace_hook (ε := ε) (Walker.Event.procCallStart nm))
      (Walker.walk_param_exprs_record ps) tr
    simpa using h

/-- Claim C7: parsing the input `FORWARD 20` yields a program with exactly
one statement — a Direction statement with direction Forward and distance
expression the integer literal 20. -/
theorem claim_C7 :
    Parser.parse "FORWARD 20"
      = some (Parser.Program.mk [Parser.Statement.Direction
          (Parser.DirectionStmt.mk Parser.Direction.Forward (Parser.Expression.Int 20))]) :=
  rfl

/-- Claim C8: with a variable named `nm` created in an outer scope (id 1) and
a same-named variable created in a directly nested inner scope (id 2),
`recursive_lookup_sym` from the inner scope returns the inner definition
(shadowing) while `lookup_symbol` against the outer scope id returns the
outer definition. -/
theorem claim_C8 (nm : String) (vout vin : Sem.Variable)
    (hout : vout.name = nm) (hin : vin.name = nm) :
    ∃ t : Sem.SymbolTable,
      Sem.shadowTable vout vin = some t
      ∧ t.recursive_lookup_sym 2 nm Sem.SymbolKind.Var = some (Sem.Symbol.Var vin)
      ∧ t.lookup_symbol 1 nm Sem.SymbolKind.Var = some (Sem.Symbol.Var vout) := by
  obtain ⟨voutn, voutg, voutr⟩ := vout
  obtain ⟨vinn, ving, vinr⟩ := vin
  have h1 : voutn = nm := hout
  have h2 : vinn = nm := hin
  subst h1
  subst h2
  refine ⟨Sem.SymbolTable.mk
    [Sem.Scope.mk 2 (some 1)
       [((vinn, Sem.SymbolKind.Var), Sem.Symbol.Var (Sem.Variable.mk vinn ving vinr))],
     Sem.Scope.mk 1 none
       [((vinn, Sem.SymbolKind.Var), Sem.Symbol.Var (Sem.Variable.mk vinn voutg voutr))]]
    3 (some 2), ?_, ?_, ?_⟩
  · simp [Sem.shadowTable, Sem.SymbolTable.new, Sem.SymbolTable.start_scope,
      Sem.SymbolTable.create_var_symbol, Sem.SymbolTable.create_symbol,
      Sem.SymbolTable.get_scope, Sem.scopeLookup, Sem.Symbol.name, Sem.Symbol.kind]
  · simp [Sem.SymbolTable.recursive_lookup_sym, Sem.recursive_lookup_aux,
      Sem.SymbolTable.get_scope, Sem.scopeLookup]
  · simp [Sem.SymbolTable.lookup_symbol, Sem.SymbolTable.get_scope, Sem.scopeLookup]

/-- Witness for claim C8 at the concrete name `A` with references 100 (outer)
and 200 (inner), mirroring the repository's shadowing test. -/
theorem claim_C8_witness :
    (Sem.Variable.mk "A" false (some 100)).name = "A"
    ∧ (Sem.Variable.mk "A" false (some 200)).name = "A"
    ∧ ∃ t : Sem.SymbolTable,
        Sem.shadowTable (Sem.Variable.mk "A" false (some 100))
          (Sem.Variable.mk "A" false (some 200)) = some t
        ∧ t.recursive_lookup_sym 2 "A" Sem.SymbolKind.Var
            = some (Sem.Symbol.Var (Sem.Variable.mk "A" false (some 200)))
        ∧ t.lookup_symbol 1 "A" Sem.SymbolKind.Var
            = some (Sem.Symbol.Var (Sem.Variable.mk "A" false (some 100))) :=
  ⟨rfl, rfl, claim_C8 "A" (Sem.Variable.mk "A" false (some 100))
    (Sem.Variable.mk "A" false (some 200)) rfl rfl⟩

end Tytle
